import Mathlib

/-!
# benchart: line decoder and chart aggregator

A shallow embedding of `benchart.go` (repository storozhukBM/benchart) and
theorems about it.

Modelling conventions.

* A Go `string` is a `List Char` (`Str`).  Every separator the program looks
  for (`/`, `-`, `;`, `:`, `%`, `=`, space) is an ASCII character, so cutting
  and splitting on characters agrees with Go's byte-wise cutting and splitting
  on valid UTF-8 text.
* A Go function returning `(T, error)` returns a `Result T`: `ok`, `error`
  with the sentinel the returned error wraps (what `errors.Is` observes), or
  `panic` when the Go runtime aborts with an index out of range.
* A Go `map` is an association list with pairwise distinct keys; a `range`
  loop over a map visits the entries in list order, and theorems quantify
  over every list, hence over every iteration order the runtime may choose.
-/

namespace Benchart

/-- Go strings, as lists of characters. -/
abbrev Str := List Char

/-- The sentinel errors of `benchart.go` (lines 25-44). -/
inductive BenchartError where
  | ErrCantCloseOutputFile
  | ErrCantFlushOutputFile
  | ErrCantMarshalChartBenchmarkResults
  | ErrCantOpenInputFile
  | ErrCantOpenOrCreateOutputFile
  | ErrCantParseBenchmarkName
  | ErrCantParseChartOptions
  | ErrCantParseErrorRate
  | ErrCantParseMeasurementAttributes
  | ErrCantParseOption
  | ErrCantParseYValue
  | ErrCantWriteOutputFile
  | ErrMeasurementLineHasNoTypeAttribute
  | ErrNotEnoughColumns
  | ErrNotEnoughInputArguments
  | ErrOptionChartNameNotFound
  | ErrOptionIsNotSupported
  | ErrOptionTypeIsWrong
  deriving DecidableEq, Repr

open BenchartError

/-- Outcome of a Go call that returns `(T, error)`: a value, a wrapped
sentinel error, or a runtime panic (index out of range). -/
inductive Result (α : Type) where
  | ok (a : α)
  | error (e : BenchartError)
  | panic
  deriving DecidableEq, Repr

namespace Result

/-- Sequencing: the first error or panic aborts the rest. -/
def bind {α β : Type} (r : Result α) (f : α → Result β) : Result β :=
  match r with
  | ok a => f a
  | error e => error e
  | panic => panic

instance : Monad Result where
  pure := Result.ok
  bind := Result.bind

/-- True when the call returned a value. -/
def isOk {α : Type} : Result α → Bool
  | ok _ => true
  | _ => false

end Result

/-! ## The `strings` functions the program uses -/

/-- Go `strings.Cut(s, sep)` for a one-character separator: the text before
the first `sep`, the text after it, and whether `sep` was found; when it is
not found the result is `(s, "", false)`. -/
def cut (s : Str) (sep : Char) : Str × Str × Bool :=
  if sep ∈ s then
    (s.takeWhile (fun c => c != sep), (s.dropWhile (fun c => c != sep)).tail, true)
  else
    (s, [], false)

/-- Go `strings.Split(s, sep)` for a one-character separator: the pieces of
`s` between the occurrences of `sep`; always at least one piece. -/
def split : Str → Char → List Str
  | [], _ => [[]]
  | c :: cs, sep =>
    if c = sep then [] :: split cs sep
    else
      match split cs sep with
      | [] => [[c]]
      | piece :: pieces => (c :: piece) :: pieces

/-- Go `strings.Join(elems, sep)` for a one-character separator. -/
def join : List Str → Char → Str
  | [], _ => []
  | [e], _ => e
  | e :: e2 :: es, sep => e ++ sep :: join (e2 :: es) sep

/-- Go `strings.HasPrefix(s, prefix)`. -/
def hasPrefix (s pre : Str) : Bool := pre.isPrefixOf s

/-- Go slice indexing `xs[i]`: panics when `i` is out of range. -/
def index (xs : List Str) (i : Nat) : Result Str :=
  match xs.get? i with
  | some x => Result.ok x
  | none => Result.panic

/-! ## Maps -/

/-- Go `v, ok := m[k]`: the value stored under `k`, if any. -/
def mapGet {ν : Type} : List (Str × ν) → Str → Option ν
  | [], _ => none
  | (k, v) :: rest, key => if k = key then some v else mapGet rest key

/-- Go `m[k] = v`: overwrite the value stored under `k`, or add the entry. -/
def mapSet {ν : Type} : List (Str × ν) → Str → ν → List (Str × ν)
  | [], key, val => [(key, val)]
  | (k, v) :: rest, key, val =>
    if k = key then (k, val) :: rest else (k, v) :: mapSet rest key val

/-- The type `map[ChartOption]string`. -/
abbrev OptionMap := List (Str × Str)

/-- The type `map[ChartName]map[ChartOption]string`. -/
abbrev Options := List (Str × OptionMap)

/-- The key `"xAxisName"`. -/
def xAxisNameKey : Str := "xAxisName".toList

/-- The key `"type"`. -/
def typeKey : Str := "type".toList

/-- Go `v, ok := options[name][key]`: a missing chart name gives the nil map,
and reading a nil map gives `("", false)`. -/
def optionsGet (options : Options) (name key : Str) : Str × Bool :=
  match mapGet options name with
  | none => ([], false)
  | some m =>
    match mapGet m key with
    | none => ([], false)
    | some v => (v, true)

/-! ## `parseAttributes` (lines 266-314) -/

/-- The variables the attribute loop of `parseAttributes` updates. -/
structure AttrState where
  caseName : Str
  xValue : Str
  xAxisName : Str
  benchmarkAttributes : List Str
  deriving DecidableEq, Repr

/-- What `parseAttributes` returns on success:
`(chartName, caseName, xValue, xAxisName)`. -/
structure Attributes where
  chartName : Str
  caseName : Str
  xValue : Str
  xAxisName : Str
  deriving DecidableEq, Repr

/-- One iteration of the loop at lines 285-303, for the attribute at index
`i` of `n` attributes. -/
def attributeStep (xAxisNameDefined : Bool) (n : Nat) (st : AttrState) (i : Nat)
    (attr : Str) : Result AttrState := do
  let attributeKeyAndValue := split attr ':'
  let key ← index attributeKeyAndValue 0
  if xAxisNameDefined && st.xAxisName == key then
    let value ← index attributeKeyAndValue 1
    return { st with xValue := value }
  if i == n - 1 then
    let value ← index attributeKeyAndValue 1
    return { st with xAxisName := key, xValue := value }
  if key == typeKey then
    let value ← index attributeKeyAndValue 1
    return { st with caseName := value }
  let value ← index attributeKeyAndValue 1
  return { st with benchmarkAttributes := st.benchmarkAttributes ++ [key ++ '=' :: value] }

/-- The loop at lines 285-303 over the attributes from index `i` on. -/
def attributesLoop (xAxisNameDefined : Bool) (n : Nat) :
    Nat → List Str → AttrState → Result AttrState
  | _, [], st => Result.ok st
  | i, attr :: rest, st =>
    match attributeStep xAxisNameDefined n st i attr with
    | Result.ok st1 => attributesLoop xAxisNameDefined n (i + 1) rest st1
    | Result.error e => Result.error e
    | Result.panic => Result.panic

/-- The function `parseAttributes(firstCell, options)`. -/
def parseAttributes (firstCell : Str) (options : Options) : Result Attributes :=
  match cut firstCell '/' with
  | (_, _, false) => Result.error ErrCantParseBenchmarkName
  | (benchmarkName, restOfTheCell, true) =>
    match cut restOfTheCell '-' with
    | (_, _, false) => Result.error ErrCantParseMeasurementAttributes
    | (measurementAttributesString, _, true) =>
      let (xAxisName, xAxisNameDefined) := optionsGet options benchmarkName xAxisNameKey
      let measurementAttributes := split measurementAttributesString ';'
      let start : AttrState :=
        { caseName := [], xValue := [], xAxisName := xAxisName,
          benchmarkAttributes := [benchmarkName] }
      match attributesLoop xAxisNameDefined measurementAttributes.length 0
          measurementAttributes start with
      | Result.error e => Result.error e
      | Result.panic => Result.panic
      | Result.ok st =>
        if st.caseName = [] then Result.error ErrMeasurementLineHasNoTypeAttribute
        else
          Result.ok
            { chartName := join st.benchmarkAttributes ' ', caseName := st.caseName,
              xValue := st.xValue, xAxisName := st.xAxisName }

/-! ### Reading a cell the way the specification describes it -/

/-- The benchmark base name of a cell: the text before the first `/`. -/
def cellBase (cell : Str) : Str := (cut cell '/').1

/-- The text of a cell after the first `/`. -/
def cellRest (cell : Str) : Str := (cut cell '/').2.1

/-- The attribute text of a cell: between the first `/` and the first `-`
that follows it. -/
def cellAttributeText (cell : Str) : Str := (cut (cellRest cell) '-').1

/-- The `;`-separated attributes of a cell. -/
def cellAttributes (cell : Str) : List Str := split (cellAttributeText cell) ';'

/-- The key of an attribute: its text before the first `:`. -/
def attrKey (attr : Str) : Str := (split attr ':').headD []

/-- The value of an attribute: its text between the first `:` and the next
one (or the end). -/
def attrValue (attr : Str) : Str := (split attr ':').getD 1 []

/-- The attributes of a cell as (key, value) pairs. -/
def cellPairs (cell : Str) : List (Str × Str) :=
  (cellAttributes cell).map (fun a => (attrKey a, attrValue a))

/-- The X-axis label known for a base name: `options[base]["xAxisName"]`
when it is present. -/
def knownLabel (options : Options) (base : Str) : Option Str :=
  match mapGet options base with
  | none => none
  | some m => mapGet m xAxisNameKey

/-- The four roles the specification gives an attribute. -/
inductive AttrClass where
  | xKnown
  | xLast
  | caseName
  | discriminator
  deriving DecidableEq, Repr

/-- The role of an attribute with key `key`, by the rules of the
specification in order: the key is the known X-axis label; else the
attribute is the last one; else the key is `type`; else a discriminator. -/
def classify (label : Option Str) (isLast : Bool) (key : Str) : AttrClass :=
  if label = some key then AttrClass.xKnown
  else if isLast then AttrClass.xLast
  else if key = typeKey then AttrClass.caseName
  else AttrClass.discriminator

/-- Every attribute of a list with its role; the last one is the one with
nothing after it. -/
def classifyAll (label : Option Str) : List (Str × Str) → List (AttrClass × Str × Str)
  | [] => []
  | kv :: rest => (classify label rest.isEmpty kv.1, kv) :: classifyAll label rest

/-- The attributes that have one of the roles `cs`, in encounter order. -/
def withClass (cs : List AttrClass) (l : List (AttrClass × Str × Str)) : List (Str × Str) :=
  (l.filter (fun x => decide (x.1 ∈ cs))).map (fun x => x.2)

/-- The discriminators of an attribute list, in encounter order. -/
def discriminators (label : Option Str) (kvs : List (Str × Str)) : List (Str × Str) :=
  withClass [AttrClass.discriminator] (classifyAll label kvs)

/-- A discriminator written `key=value`. -/
def renderDiscriminator (kv : Str × Str) : Str := kv.1 ++ '=' :: kv.2

/-- The chart identity of the specification: the base name followed by the
discriminators written `key=value`, joined by single spaces. -/
def chartIdentity (base : Str) (label : Option Str) (kvs : List (Str × Str)) : Str :=
  join (base :: (discriminators label kvs).map renderDiscriminator) ' '

/-- The case name of the specification: the value of the (last) attribute
with the role `caseName`, the empty string when there is none. -/
def specCaseName (label : Option Str) (kvs : List (Str × Str)) : Str :=
  match (withClass [AttrClass.caseName] (classifyAll label kvs)).getLast? with
  | some kv => kv.2
  | none => []

/-- The X value of the specification: the value of the last attribute with
a role that gives the X value. -/
def specXValue (label : Option Str) (kvs : List (Str × Str)) : Str :=
  match (withClass [AttrClass.xKnown, AttrClass.xLast] (classifyAll label kvs)).getLast? with
  | some kv => kv.2
  | none => []

/-- The X-axis label of the specification: the key of the attribute with the
role `xLast` when there is one, else the known label (empty when unknown). -/
def specXAxisName (label : Option Str) (kvs : List (Str × Str)) : Str :=
  match (withClass [AttrClass.xLast] (classifyAll label kvs)).getLast? with
  | some kv => kv.1
  | none => label.getD []

/-- The decoding of the specification for base name `base`, known label
`label` and attributes `kvs`. -/
def decodeSpec (base : Str) (label : Option Str) (kvs : List (Str × Str)) :
    Result Attributes :=
  if specCaseName label kvs = [] then Result.error ErrMeasurementLineHasNoTypeAttribute
  else
    Result.ok
      { chartName := chartIdentity base label kvs, caseName := specCaseName label kvs,
        xValue := specXValue label kvs, xAxisName := specXAxisName label kvs }

/-- The effect of one attribute with role `c` on the loop variables. -/
def applyClass (st : AttrState) (c : AttrClass) (k v : Str) : AttrState :=
  match c with
  | AttrClass.xKnown => { st with xValue := v }
  | AttrClass.xLast => { st with xAxisName := k, xValue := v }
  | AttrClass.caseName => { st with caseName := v }
  | AttrClass.discriminator =>
    { st with benchmarkAttributes := st.benchmarkAttributes ++ [k ++ '=' :: v] }

/-- The loop variables after the classified attributes `l`, left to right. -/
def finalState (st : AttrState) : List (AttrClass × Str × Str) → AttrState
  | [] => st
  | (c, k, v) :: rest => finalState (applyClass st c k v) rest

/-- The discriminators of a cell under the given options, in encounter
order. -/
def cellDiscriminators (options : Options) (cell : Str) : List (Str × Str) :=
  discriminators (knownLabel options (cellBase cell)) (cellPairs cell)

/-- A discriminator whose rendering `key=value` can be read back: no space
in the key or the value, no `=` in the key. -/
def readableDiscriminator (kv : Str × Str) : Prop :=
  ' ' ∉ kv.1 ∧ '=' ∉ kv.1 ∧ ' ' ∉ kv.2

instance (kv : Str × Str) : Decidable (readableDiscriminator kv) := by
  unfold readableDiscriminator; infer_instance

/-- An attribute `key:value` as it is written in a cell. -/
def renderAttribute (kv : Str × Str) : Str := kv.1 ++ ':' :: kv.2

/-- A cell `<base>/<attrs>-<suffix>` whose attributes are the pairs `kvs`. -/
def renderCell (base : Str) (kvs : List (Str × Str)) (suffix : Str) : Str :=
  base ++ '/' :: (join (kvs.map renderAttribute) ';' ++ '-' :: suffix)

/-- A text that can stand as a key or a value of a `key:value` attribute:
it contains none of `:`, `;` and `-`. -/
def plainText (s : Str) : Prop := ':' ∉ s ∧ ';' ∉ s ∧ '-' ∉ s

instance (s : Str) : Decidable (plainText s) := by
  unfold plainText; infer_instance

/-! ## `parsePoint`, `parseYValue`, `parseErrorRate` (lines 246-264, 316-342) -/

/-- The `float64` operations `parsePoint` takes from the Go runtime and
standard library: `strconv.ParseFloat(s, 64)` (`none` when it returns an
error), `*`, `/`, the constant `100` and `fmt.Sprintf("%v", f)`. -/
structure FloatOps (F : Type) where
  parseFloat : Str → Option F
  mul : F → F → F
  div : F → F → F
  percents : F
  format : F → Str

/-- The type `Point`. -/
structure Point where
  X : Str
  Y : Str
  Error : Str
  deriving DecidableEq, Repr

/-- The function `parseYValue(secondCell)`. -/
def parseYValue {F : Type} (ops : FloatOps F) (secondCell : Str) : Result F :=
  match ops.parseFloat secondCell with
  | none => Result.error ErrCantParseYValue
  | some yValue => Result.ok yValue

/-- The function `parseErrorRate(thirdCell)`.  `len(thirdCell) < 2` counts
bytes; a cell of fewer than two characters and at least two bytes is a
single non-ASCII character, whose last byte is not `%`, so the guard is the
same on characters. -/
def parseErrorRate {F : Type} (ops : FloatOps F) (thirdCell : Str) : Result F :=
  if thirdCell.length < 2 || thirdCell.getLast? != some '%' then
    Result.error ErrCantParseErrorRate
  else
    match ops.parseFloat thirdCell.dropLast with
    | none => Result.error ErrCantParseErrorRate
    | some errorRate => Result.ok errorRate

/-- The function `parsePoint(xValueStr, yValueStr, errorValueStr)`. -/
def parsePoint {F : Type} (ops : FloatOps F) (xValueStr yValueStr errorValueStr : Str) :
    Result Point := do
  let yValue ← parseYValue ops yValueStr
  let errorRate ← parseErrorRate ops errorValueStr
  return { X := xValueStr, Y := yValueStr,
           Error := ops.format (ops.mul yValue (ops.div errorRate ops.percents)) }

/-! ### An exact decimal instance of the float operations

Not IEEE 754 binary64: unsigned decimals `m / 10 ^ d` with exact
multiplication and a division truncated after 17 further decimals.  It
serves to instantiate the theorems on `parsePoint` at concrete cells. -/

/-- The value of a decimal digit. -/
def digitValue (c : Char) : Option Nat :=
  if c.isDigit then some (c.toNat - '0'.toNat) else none

/-- Reads a non-empty run of decimal digits. -/
def parseDigits : Str → Option Nat
  | [] => none
  | c :: cs =>
    (c :: cs).foldl
      (fun acc ch =>
        match acc, digitValue ch with
        | some n, some v => some (10 * n + v)
        | _, _ => none)
      (some 0)

/-- Reads `digits` or `digits.digits` as the pair (mantissa, decimals). -/
def parseDecimal (s : Str) : Option (Nat × Nat) :=
  match split s '.' with
  | [whole] => (parseDigits whole).map (fun n => (n, 0))
  | [whole, frac] =>
    match parseDigits whole, parseDigits frac with
    | some n, some f => some (n * 10 ^ frac.length + f, frac.length)
    | _, _ => none
  | _ => none

/-- Drops the trailing zero decimals of `m / 10 ^ d`. -/
def stripZeros : Nat → Nat → Nat × Nat
  | m, 0 => (m, 0)
  | m, d + 1 => if m % 10 = 0 then stripZeros (m / 10) d else (m, d + 1)

/-- The last `d` decimal digits of `m`, most significant first. -/
def fractionDigits : Nat → Nat → Str
  | _, 0 => []
  | m, d + 1 => fractionDigits (m / 10) d ++ [Nat.digitChar (m % 10)]

/-- Writes `m / 10 ^ d` in decimal without trailing zeros. -/
def formatDecimal (x : Nat × Nat) : Str :=
  match stripZeros x.1 x.2 with
  | (m, 0) => Nat.toDigits 10 m
  | (m, d + 1) => Nat.toDigits 10 (m / 10 ^ (d + 1)) ++ '.' :: fractionDigits m (d + 1)

/-- The exact decimal operations. -/
def decimalOps : FloatOps (Nat × Nat) where
  parseFloat := parseDecimal
  mul := fun x y => (x.1 * y.1, x.2 + y.2)
  div := fun x y => (x.1 * 10 ^ (y.2 + 17) / y.1, x.2 + 17)
  percents := (100, 0)
  format := formatDecimal

/-! ## `applyOptionsToResults` and `initBenchResult` (lines 206-244) -/

/-- The type `BenchmarkResults`; `Cases` and `Options` are Go maps. -/
structure BenchmarkResults where
  ID : Str
  Name : Str
  YAxisLabel : Str
  Cases : List (Str × List Point)
  Options : OptionMap
  deriving DecidableEq, Repr

/-- The type `map[ChartName]*BenchmarkResults`.  Every chart is allocated by
its own call of `initBenchResult`, so no two names share a pointer and the
map is a map from names to chart values. -/
abbrev Charts := List (Str × BenchmarkResults)

/-- The function `initBenchResult(chartName, xAxisName, yAxisLabel)`;
`sha256Hex` stands for `hex.EncodeToString` of `sha256.Sum256`. -/
def initBenchResult (sha256Hex : Str → Str) (chartName xAxisName yAxisLabel : Str) :
    BenchmarkResults :=
  { ID := sha256Hex chartName, Name := chartName,
    Options := [(xAxisNameKey, xAxisName)], YAxisLabel := yAxisLabel, Cases := [] }

/-- The loop at lines 216-218: `cases.Options[optionKey] = optionValue` for
every entry of the option map. -/
def setOptions : OptionMap → OptionMap → OptionMap
  | chartOptions, [] => chartOptions
  | chartOptions, (optionKey, optionValue) :: rest =>
    setOptions (mapSet chartOptions optionKey optionValue) rest

/-- The loop at lines 212-220 over the charts: updates the charts whose name
starts with `optionsBenchName` and tells whether there was one. -/
def applyToCharts (optionsBenchName : Str) (options : OptionMap) :
    Charts → Bool → Charts × Bool
  | [], optionApplied => ([], optionApplied)
  | (benchName, cases) :: rest, optionApplied =>
    if hasPrefix benchName optionsBenchName then
      let (rest1, applied) := applyToCharts optionsBenchName options rest true
      ((benchName, { cases with Options := setOptions cases.Options options }) :: rest1,
        applied)
    else
      let (rest1, applied) := applyToCharts optionsBenchName options rest optionApplied
      ((benchName, cases) :: rest1, applied)

/-- The function `applyOptionsToResults(options, benchmarkToCases)`.  The Go
function updates the charts in place and returns only an error; here the
updated charts are returned on success (on failure the caller drops them). -/
def applyOptionsToResults : Options → Charts → Result Charts
  | [], benchmarkToCases => Result.ok benchmarkToCases
  | (optionsBenchName, options) :: rest, benchmarkToCases =>
    match applyToCharts optionsBenchName options benchmarkToCases false with
    | (_, false) => Result.error ErrOptionChartNameNotFound
    | (updated, true) => applyOptionsToResults rest updated

/-- One chart after the options of the prefix `optionsBenchName` have been
applied: updated when its name starts with the prefix, unchanged otherwise. -/
def applyOne (optionsBenchName : Str) (options : OptionMap)
    (c : Str × BenchmarkResults) : Str × BenchmarkResults :=
  if hasPrefix c.1 optionsBenchName then
    (c.1, { c.2 with Options := setOptions c.2.Options options })
  else c

/-- The options of a chart named `name` after every supplied pair has been
applied in order. -/
def chartOptionsAfter : Options → Str → OptionMap → OptionMap
  | [], _, chartOptions => chartOptions
  | (optionsBenchName, options) :: rest, name, chartOptions =>
    chartOptionsAfter rest name
      (if hasPrefix name optionsBenchName then setOptions chartOptions options
       else chartOptions)

/-- The statement of the specification on merged options: every chart whose
name starts with a supplied prefix maps every key of that prefix's option
map to the option map's value. -/
def OverwritesAll (options : Options) (charts : Charts) : Prop :=
  ∀ p ∈ options, ∀ c ∈ charts, p.1 <+: c.1 →
    ∀ kv ∈ p.2, mapGet c.2.Options kv.1 = some kv.2

/-- The key `"title"`. -/
def titleKey : Str := "title".toList

/-- A chart named `Hash` as `initBenchResult` creates it, with the X-axis
label `bytes` (the ID is left empty). -/
def hashChart : BenchmarkResults :=
  initBenchResult (fun _ => []) "Hash".toList "bytes".toList "ns/op".toList

/-- What applying the options may change in one chart: `after` is the chart
`before` (under the same name) with the same ID, name, Y-axis label and
cases; its options mapping is the same when no supplied prefix matches the
chart's name, and every option key named in no matching option map keeps
its value. -/
def Framed (options : Options) (before after : Str × BenchmarkResults) : Prop :=
  after.1 = before.1 ∧ after.2.ID = before.2.ID ∧ after.2.Name = before.2.Name ∧
    after.2.YAxisLabel = before.2.YAxisLabel ∧ after.2.Cases = before.2.Cases ∧
    ((∀ p ∈ options, ¬ p.1 <+: before.1) → after.2.Options = before.2.Options) ∧
    (∀ k : Str, (∀ p ∈ options, p.1 <+: before.1 → ∀ v, (k, v) ∉ p.2) →
      mapGet after.2.Options k = mapGet before.2.Options k)

/-! ## `parseBenchmarkResultsFromInputFile` (lines 127-204) -/

/-- Go `unicode.IsSpace`: tab, line feed, vertical tab, form feed, carriage
return, space, U+0085, U+00A0 and the characters with the Unicode property
White_Space outside Latin-1. -/
def isSpace (c : Char) : Bool :=
  c.toNat ∈ [0x09, 0x0A, 0x0B, 0x0C, 0x0D, 0x20, 0x85, 0xA0, 0x1680, 0x2028, 0x2029,
    0x202F, 0x205F, 0x3000] || (0x2000 ≤ c.toNat && c.toNat ≤ 0x200A)

/-- Go `strings.TrimSpace(s)`: `s` without its leading and trailing white
space. -/
def trimSpace (s : Str) : Str := (s.dropWhile isSpace).rdropWhile isSpace

/-- The text `"name"`. -/
def nameToken : Str := "name".toList

/-- The constant `minNumberOfCellsInOneRow`. -/
def minNumberOfCellsInOneRow : Nat := 3

/-- The variables the scanning loop updates.  `lineCount` is left out: it
only feeds the text of error messages, of which the model keeps the wrapped
sentinel alone. -/
structure ScanState where
  benchmarkToCases : Charts
  benchmarkNamesOrder : List Str
  firstLine : Str
  yAxisLabel : Str
  deriving DecidableEq, Repr

/-- The state before the first line (lines 133-136). -/
def initialScanState : ScanState :=
  { benchmarkToCases := [], benchmarkNamesOrder := [], firstLine := [], yAxisLabel := [] }

/-- One iteration of the loop at lines 139-191 on the scanner's text of one
line.  The boolean tells whether the loop goes on (`continue`, or the end
of the body) or stops (`break`). -/
def lineStep {F : Type} (ops : FloatOps F) (sha256Hex : Str → Str) (options : Options)
    (st : ScanState) (text : Str) : Result (Bool × ScanState) :=
  let line := trimSpace text
  if line.length = 0 then Result.ok (true, st)
  else if hasPrefix line nameToken && st.firstLine != [] then Result.ok (false, st)
  else if st.firstLine = [] then
    let cells := split line ','
    if cells.length < minNumberOfCellsInOneRow then Result.error ErrNotEnoughColumns
    else do
      let yAxisLabel ← index cells 1
      return (true, { st with firstLine := line, yAxisLabel := yAxisLabel })
  else
    let cells := split line ','
    if cells.length < minNumberOfCellsInOneRow then Result.error ErrNotEnoughColumns
    else do
      let firstCell ← index cells 0
      let attrs ← parseAttributes firstCell options
      let yValueStr ← index cells 1
      let errorValueStr ← index cells 2
      let point ← parsePoint ops attrs.xValue yValueStr errorValueStr
      let (cases, benchmarkNamesOrder) :=
        match mapGet st.benchmarkToCases attrs.chartName with
        | some cases => (cases, st.benchmarkNamesOrder)
        | none =>
          (initBenchResult sha256Hex attrs.chartName attrs.xAxisName st.yAxisLabel,
            st.benchmarkNamesOrder ++ [attrs.chartName])
      let cases :=
        { cases with
          Cases := mapSet cases.Cases attrs.caseName
            ((mapGet cases.Cases attrs.caseName).getD [] ++ [point]) }
      return (true,
        { st with
          benchmarkToCases := mapSet st.benchmarkToCases attrs.chartName cases,
          benchmarkNamesOrder := benchmarkNamesOrder })

/-- The loop at lines 139-191 over the lines the scanner yields. -/
def scanLines {F : Type} (ops : FloatOps F) (sha256Hex : Str → Str) (options : Options) :
    List Str → ScanState → Result ScanState
  | [], st => Result.ok st
  | text :: rest, st =>
    match lineStep ops sha256Hex options st text with
    | Result.ok (true, st1) => scanLines ops sha256Hex options rest st1
    | Result.ok (false, st1) => Result.ok st1
    | Result.error e => Result.error e
    | Result.panic => Result.panic

/-- The function `parseBenchmarkResultsFromInputFile(inputFile, options)`,
on the lines `bufio.Scanner` yields for the file.  The result is a slice of
pointers: `none` is the nil pointer a missing map entry would give. -/
def parseBenchmarkResultsFromInputFile {F : Type} (ops : FloatOps F)
    (sha256Hex : Str → Str) (inputLines : List Str) (options : Options) :
    Result (List (Option BenchmarkResults)) :=
  match scanLines ops sha256Hex options inputLines initialScanState with
  | Result.error e => Result.error e
  | Result.panic => Result.panic
  | Result.ok st =>
    match applyOptionsToResults options st.benchmarkToCases with
    | Result.error e => Result.error e
    | Result.panic => Result.panic
    | Result.ok benchmarkToCases =>
      Result.ok (st.benchmarkNamesOrder.map (fun benchmarkName =>
        mapGet benchmarkToCases benchmarkName))

/-! ### Reading an input the way the specification describes it -/

/-- The non-blank lines of an input, trimmed, in input order. -/
def nonBlankLines (inputLines : List Str) : List Str :=
  (inputLines.map trimSpace).filter (fun l => decide (l ≠ []))

/-- The header: the first non-blank line, trimmed. -/
def headerLine (inputLines : List Str) : Option Str := (nonBlankLines inputLines).head?

/-- The processed data lines: the non-blank lines after the header and
before the first one that begins with `name`, trimmed. -/
def dataLines (inputLines : List Str) : List Str :=
  (nonBlankLines inputLines).tail.takeWhile (fun l => !hasPrefix l nameToken)

/-- A decoded data row: the chart identity, the case name and the X-axis
label it resolves to, and its point. -/
structure Row where
  chartName : Str
  caseName : Str
  xAxisName : Str
  point : Point
  deriving DecidableEq, Repr

/-- The decoding of one trimmed data line: at least three comma-separated
cells, the first decoded by `parseAttributes`, the second and third by
`parsePoint`. -/
def decodeRow {F : Type} (ops : FloatOps F) (options : Options) (line : Str) : Result Row :=
  match split line ',' with
  | firstCell :: yValueStr :: errorValueStr :: _ =>
    match parseAttributes firstCell options with
    | Result.error e => Result.error e
    | Result.panic => Result.panic
    | Result.ok attrs =>
      match parsePoint ops attrs.xValue yValueStr errorValueStr with
      | Result.error e => Result.error e
      | Result.panic => Result.panic
      | Result.ok point =>
        Result.ok
          { chartName := attrs.chartName, caseName := attrs.caseName,
            xAxisName := attrs.xAxisName, point := point }
  | _ => Result.error ErrNotEnoughColumns

/-- The decoding of the data lines in order; the first failure is the
result. -/
def decodeRows {F : Type} (ops : FloatOps F) (options : Options) :
    List Str → Result (List Row)
  | [] => Result.ok []
  | line :: rest =>
    match decodeRow ops options line with
    | Result.error e => Result.error e
    | Result.panic => Result.panic
    | Result.ok row =>
      match decodeRows ops options rest with
      | Result.error e => Result.error e
      | Result.panic => Result.panic
      | Result.ok rows => Result.ok (row :: rows)

/-- The distinct elements of a list in the order of their first
occurrence. -/
def firstSeen : List Str → List Str
  | [] => []
  | x :: xs => x :: (firstSeen xs).filter (fun y => decide (y ≠ x))

/-- The points of the rows that resolve to the chart `chartName` and the
case `caseName`, in row order. -/
def pointsOf (rows : List Row) (chartName caseName : Str) : List Point :=
  (rows.filter (fun r => decide (r.chartName = chartName ∧ r.caseName = caseName))).map
    (fun r => r.point)

/-- The case names of the rows that resolve to the chart `chartName`, in row
order. -/
def caseNamesOf (rows : List Row) (chartName : Str) : List Str :=
  (rows.filter (fun r => decide (r.chartName = chartName))).map (fun r => r.caseName)

/-- The effect of one decoded row on the charts and on the order of their
names (lines 183-190). -/
def addRow (sha256Hex : Str → Str) (yAxisLabel : Str) (acc : Charts × List Str) (row : Row) :
    Charts × List Str :=
  let (cases, benchmarkNamesOrder) :=
    match mapGet acc.1 row.chartName with
    | some cases => (cases, acc.2)
    | none =>
      (initBenchResult sha256Hex row.chartName row.xAxisName yAxisLabel,
        acc.2 ++ [row.chartName])
  (mapSet acc.1 row.chartName
      { cases with
        Cases := mapSet cases.Cases row.caseName
          ((mapGet cases.Cases row.caseName).getD [] ++ [row.point]) },
    benchmarkNamesOrder)

/-- The association list that maps every name of `names` to `f name`. -/
def tab {ν : Type} (names : List Str) (f : Str → ν) : List (Str × ν) :=
  names.map (fun n => (n, f n))

/-- The X-axis label of the first row that resolves to the chart
`chartName` (empty when there is none). -/
def firstXAxisName (rows : List Row) (chartName : Str) : Str :=
  match rows.find? (fun r => decide (r.chartName = chartName)) with
  | some r => r.xAxisName
  | none => []

/-- The chart named `chartName` that the rows `rows` build under the Y-axis
label `yAxisLabel`, before the options are applied. -/
def chartOf (sha256Hex : Str → Str) (yAxisLabel : Str) (rows : List Row) (chartName : Str) :
    BenchmarkResults :=
  { ID := sha256Hex chartName, Name := chartName, YAxisLabel := yAxisLabel,
    Options := [(xAxisNameKey, firstXAxisName rows chartName)],
    Cases := tab (firstSeen (caseNamesOf rows chartName)) (pointsOf rows chartName) }

/-- The charts and the order of their names after the rows `rows`. -/
def aggregateRows (sha256Hex : Str → Str) (yAxisLabel : Str) (rows : List Row) :
    Charts × List Str :=
  rows.foldl (addRow sha256Hex yAxisLabel) ([], [])

/-- The chart named `chartName` as it is returned: the chart the rows build,
with the options applied. -/
def finalChart (sha256Hex : Str → Str) (yAxisLabel : Str) (options : Options)
    (rows : List Row) (chartName : Str) : BenchmarkResults :=
  { chartOf sha256Hex yAxisLabel rows chartName with
    Options := chartOptionsAfter options chartName
      (chartOf sha256Hex yAxisLabel rows chartName).Options }

/-- The Y-axis label a header line gives: its second comma-separated cell. -/
def headerLabel (header : Str) : Str := (split header ',').getD 1 []

/-- The Y-axis label of an input: the second comma-separated cell of its
header (empty when the input has no non-blank line). -/
def inputLabel (inputLines : List Str) : Str :=
  match headerLine inputLines with
  | some header => headerLabel header
  | none => []

/-- The number of points a returned chart list holds, over all the cases of
all the charts. -/
def pointCount (result : List (Option BenchmarkResults)) : Nat :=
  (result.map (fun c =>
    match c with
    | some b => (b.Cases.map (fun e => e.2.length)).sum
    | none => 0)).sum

/-- Go's order on strings (byte-wise, which on UTF-8 text is the
lexicographic order on code points). -/
def strLe : Str → Str → Bool
  | [], _ => true
  | _ :: _, [] => false
  | a :: s, b :: t => if a < b then true else if a = b then strLe s t else false

/-- The order in which `json.MarshalIndent` (line 105) writes the keys of a
Go map: sorted.  A Go map holds its keys in no order of its own; this is the
order in which the output exposes them. -/
def jsonKeys {ν : Type} (m : List (Str × ν)) : List Str :=
  (m.map (fun e => e.1)).insertionSort (fun a b => strLe a b = true)

/-! ## `parseOptions` (lines 354-424) -/

/-- The key `"xAxisType"`. -/
def xAxisTypeKey : Str := "xAxisType".toList

/-- The key `"yAxisType"`. -/
def yAxisTypeKey : Str := "yAxisType".toList

/-- The option type `"string"`. -/
def stringType : Str := "string".toList

/-- The option type `"log"`. -/
def logType : Str := "log".toList

/-- The map `supportedChartOptions` (lines 355-360): every supported option
with the set of its types. -/
def supportedChartOptions : List (Str × List (Str × Unit)) :=
  [(titleKey, [(stringType, ())]),
   (xAxisNameKey, [(stringType, ())]),
   (xAxisTypeKey, [(logType, ())]),
   (yAxisTypeKey, [(logType, ())])]

/-- One iteration of the loop at lines 387-418 on one `key=value` text. -/
def optionStep (chartOptions : OptionMap) (optionString : Str) : Result OptionMap :=
  let optionSlice := split optionString '='
  if optionSlice.length ≠ 2 then Result.error ErrCantParseOption
  else do
    let chartOption ← index optionSlice 0
    match mapGet supportedChartOptions chartOption with
    | none => Result.error ErrOptionIsNotSupported
    | some optionTypeSet =>
      let chartOptionValue ← index optionSlice 1
      let stringAllowed := (mapGet optionTypeSet stringType).isSome
      let thisOptionAllowed := (mapGet optionTypeSet chartOptionValue).isSome
      if stringAllowed || thisOptionAllowed then
        return mapSet chartOptions chartOption chartOptionValue
      else Result.error ErrOptionTypeIsWrong

/-- The loop at lines 387-418 over the options of one argument. -/
def optionsLoop : List Str → OptionMap → Result OptionMap
  | [], chartOptions => Result.ok chartOptions
  | optionString :: rest, chartOptions =>
    match optionStep chartOptions optionString with
    | Result.ok chartOptions1 => optionsLoop rest chartOptions1
    | Result.error e => Result.error e
    | Result.panic => Result.panic

/-- One iteration of the loop at lines 376-421 on one option argument. -/
def argumentStep (options : Options) (optionsString : Str) : Result Options :=
  match cut optionsString ';' with
  | (_, _, false) => Result.error ErrCantParseChartOptions
  | (chartName, otherOptions, true) =>
    let chartOptions :=
      match mapGet options chartName with
      | some chartOptions => chartOptions
      | none => []
    match optionsLoop (split otherOptions ';') chartOptions with
    | Result.ok chartOptions1 => Result.ok (mapSet options chartName chartOptions1)
    | Result.error e => Result.error e
    | Result.panic => Result.panic

/-- The loop at lines 376-421 over the option arguments. -/
def argumentsLoop : List Str → Options → Result Options
  | [], options => Result.ok options
  | optionsString :: rest, options =>
    match argumentStep options optionsString with
    | Result.ok options1 => argumentsLoop rest options1
    | Result.error e => Result.error e
    | Result.panic => Result.panic

/-- The function `parseOptions(cliArguments)`: the input file path, the
output file path and the options. -/
def parseOptions (cliArguments : List Str) : Result (Str × Str × Options) :=
  let minArgumentsCount := 3
  if cliArguments.length < minArgumentsCount then Result.error ErrNotEnoughInputArguments
  else do
    let inputFilePath ← index cliArguments (cliArguments.length - 2)
    let outputFilePath ← index cliArguments (cliArguments.length - 1)
    if cliArguments.length = minArgumentsCount then
      return (inputFilePath, outputFilePath, [])
    let optionArguments := (cliArguments.take (cliArguments.length - 2)).drop 1
    let options ← argumentsLoop optionArguments []
    return (inputFilePath, outputFilePath, options)

/-- The option vocabulary of the specification: `title` and `xAxisName`
with any value, `xAxisType` and `yAxisType` with the value `log`. -/
def inVocabulary (key value : Str) : Prop :=
  key = titleKey ∨ key = xAxisNameKey ∨
    ((key = xAxisTypeKey ∨ key = yAxisTypeKey) ∧ value = logType)

instance (key value : Str) : Decidable (inVocabulary key value) := by
  unfold inVocabulary; infer_instance

/-- The first non-blank line of an input, as the scanner yields it. -/
def rawHeaderLine (inputLines : List Str) : Option Str :=
  inputLines.find? (fun l => decide (trimSpace l ≠ []))

/-! ### A sample input -/

/-- A sample input: a blank line, the header, four data rows for the charts
`Hash` and `Sum`, and a second table that is not read. -/
def sampleInput : List Str :=
  ["  ".toList,
   "name,time/op (ns/op),±".toList,
   "Hash/type:sha;bytes:4-8,20.0,5%".toList,
   "Sum/type:b;n:1-8,20.0,5%".toList,
   "Hash/type:crc32;bytes:4-8,10.0,5%".toList,
   "Hash/type:sha;bytes:8-8,11.0,5%".toList,
   "name,alloc/op,±".toList,
   "garbage".toList]

/-- The rows the data lines of the sample input decode to. -/
def sampleRows : List Row :=
  [⟨"Hash".toList, "sha".toList, "bytes".toList, ⟨"4".toList, "20.0".toList, "1".toList⟩⟩,
   ⟨"Sum".toList, "b".toList, "n".toList, ⟨"1".toList, "20.0".toList, "1".toList⟩⟩,
   ⟨"Hash".toList, "crc32".toList, "bytes".toList, ⟨"4".toList, "10.0".toList, "0.5".toList⟩⟩,
   ⟨"Hash".toList, "sha".toList, "bytes".toList, ⟨"8".toList, "11.0".toList, "0.55".toList⟩⟩]

/-- The chart `Hash` of the sample input. -/
def sampleHash : BenchmarkResults :=
  { ID := [], Name := "Hash".toList, YAxisLabel := "time/op (ns/op)".toList,
    Cases :=
      [("sha".toList,
          [⟨"4".toList, "20.0".toList, "1".toList⟩, ⟨"8".toList, "11.0".toList, "0.55".toList⟩]),
        ("crc32".toList, [⟨"4".toList, "10.0".toList, "0.5".toList⟩])],
    Options := [(xAxisNameKey, "bytes".toList)] }

/-- The chart `Sum` of the sample input. -/
def sampleSum : BenchmarkResults :=
  { ID := [], Name := "Sum".toList, YAxisLabel := "time/op (ns/op)".toList,
    Cases := [("b".toList, [⟨"1".toList, "20.0".toList, "1".toList⟩])],
    Options := [(xAxisNameKey, "n".toList)] }

/-- What the aggregation returns on the sample input without options (the
hash function is taken to be constantly empty). -/
def sampleResult : List (Option BenchmarkResults) := [some sampleHash, some sampleSum]

/-! ## Facts about `cut`, `split` and `join` -/

theorem cut_of_not_mem (s : Str) (sep : Char) (h : sep ∉ s) : cut s sep = (s, [], false) := by
  simp [cut, h]

theorem takeWhile_ne_append (a b : Str) (sep : Char) (h : sep ∉ a) :
    (a ++ sep :: b).takeWhile (fun c => c != sep) = a := by
  induction a with
  | nil => simp [List.takeWhile]
  | cons c cs ih =>
    have hc : c ≠ sep := fun e => h (by simp [e])
    have hcs : sep ∉ cs := fun e => h (by simp [e])
    have hb : (c != sep) = true := by simpa using hc
    simp [List.takeWhile, hb, ih hcs]

theorem dropWhile_ne_append (a b : Str) (sep : Char) (h : sep ∉ a) :
    (a ++ sep :: b).dropWhile (fun c => c != sep) = sep :: b := by
  induction a with
  | nil => simp [List.dropWhile]
  | cons c cs ih =>
    have hc : c ≠ sep := fun e => h (by simp [e])
    have hcs : sep ∉ cs := fun e => h (by simp [e])
    have hb : (c != sep) = true := by simpa using hc
    simp [List.dropWhile, hb, ih hcs]

theorem cut_append_sep (a b : Str) (sep : Char) (h : sep ∉ a) :
    cut (a ++ sep :: b) sep = (a, b, true) := by
  simp [cut, takeWhile_ne_append a b sep h, dropWhile_ne_append a b sep h]

theorem cut_found_iff (s : Str) (sep : Char) : (cut s sep).2.2 = true ↔ sep ∈ s := by
  by_cases h : sep ∈ s <;> simp [cut, h]

theorem split_ne_nil (s : Str) (sep : Char) : split s sep ≠ [] := by
  induction s with
  | nil => simp [split]
  | cons c cs ih =>
    by_cases hc : c = sep
    · simp [split, hc]
    · cases hs : split cs sep <;> simp [split, hc, hs]

theorem split_of_not_mem (s : Str) (sep : Char) (h : sep ∉ s) : split s sep = [s] := by
  induction s with
  | nil => simp [split]
  | cons c cs ih =>
    have hc : c ≠ sep := fun e => h (by simp [e])
    have hcs : sep ∉ cs := fun e => h (by simp [e])
    simp [split, hc, ih hcs]

theorem split_append_sep (a b : Str) (sep : Char) (h : sep ∉ a) :
    split (a ++ sep :: b) sep = a :: split b sep := by
  induction a with
  | nil => simp [split]
  | cons c cs ih =>
    have hc : c ≠ sep := fun e => h (by simp [e])
    have hcs : sep ∉ cs := fun e => h (by simp [e])
    simp [split, hc, ih hcs]

theorem split_join (es : List Str) (sep : Char) (hne : es ≠ [])
    (h : ∀ e ∈ es, sep ∉ e) : split (join es sep) sep = es := by
  induction es with
  | nil => exact absurd rfl hne
  | cons e rest ih =>
    cases rest with
    | nil => simpa [join] using split_of_not_mem e sep (h e (by simp))
    | cons e2 rest2 =>
      have he : sep ∉ e := h e (by simp)
      have hrest : ∀ x ∈ e2 :: rest2, sep ∉ x := fun x hx => h x (List.mem_cons_of_mem _ hx)
      simp only [join]
      rw [split_append_sep e _ sep he, ih (by simp) hrest]

theorem not_mem_join (es : List Str) (sep c : Char) (hc : c ≠ sep)
    (h : ∀ e ∈ es, c ∉ e) : c ∉ join es sep := by
  induction es with
  | nil => simp [join]
  | cons e rest ih =>
    cases rest with
    | nil => simpa [join] using h e (by simp)
    | cons e2 rest2 =>
      have hrest : ∀ x ∈ e2 :: rest2, c ∉ x := fun x hx => h x (List.mem_cons_of_mem _ hx)
      have := ih hrest
      simp only [join, List.mem_append, List.mem_cons, not_or]
      exact ⟨h e (by simp), hc, this⟩

/-! ## The attribute loop -/

theorem split_of_mem (s : Str) (sep : Char) (h : sep ∈ s) :
    ∃ k v rest, split s sep = k :: v :: rest := by
  induction s with
  | nil => simp at h
  | cons c cs ih =>
    by_cases hc : c = sep
    · obtain ⟨v, rest, hv⟩ := List.exists_cons_of_ne_nil (split_ne_nil cs sep)
      exact ⟨[], v, rest, by simp [split, hc, hv]⟩
    · have hcs : sep ∈ cs := by
        rcases List.mem_cons.mp h with e | e
        · exact absurd e.symm hc
        · exact e
      obtain ⟨k, v, rest, hk⟩ := ih hcs
      exact ⟨c :: k, v, rest, by simp [split, hc, hk]⟩

theorem split_length_one_of_not_mem (s : Str) (sep : Char) (h : sep ∉ s) :
    (split s sep).length = 1 := by
  simp [split_of_not_mem s sep h]

theorem attributeStep_of_colon (xAxisNameDefined : Bool) (n i : Nat) (st : AttrState)
    (a : Str) (h : ':' ∈ a) :
    attributeStep xAxisNameDefined n st i a =
      Result.ok (applyClass st
        (classify (if xAxisNameDefined then some st.xAxisName else none) (i == n - 1)
          (attrKey a)) (attrKey a) (attrValue a)) := by
  obtain ⟨k, v, rest, hs⟩ := split_of_mem a ':' h
  have hk : attrKey a = k := by simp [attrKey, hs]
  have hv : attrValue a = v := by simp [attrValue, hs]
  rw [hk, hv]
  unfold attributeStep
  simp only [hs, index, List.get?, bind, Result.bind, pure]
  cases xAxisNameDefined
  · by_cases h2 : i = n - 1
    · simp [classify, applyClass, h2]
    · by_cases h3 : k = typeKey
      · simp [classify, applyClass, h2, h3]
      · simp [classify, applyClass, h2, h3]
  · by_cases h1 : st.xAxisName = k
    · simp [classify, applyClass, h1]
    · have h1b : ¬ (some st.xAxisName = some k) := by simpa using h1
      by_cases h2 : i = n - 1
      · simp [classify, applyClass, h1, h2]
      · by_cases h3 : k = typeKey
        · subst h3
          simp [classify, applyClass, h1, h2]
        · simp [classify, applyClass, h1, h2, h3]

theorem attributeStep_of_no_colon (xAxisNameDefined : Bool) (n i : Nat) (st : AttrState)
    (a : Str) (h : ':' ∉ a) : attributeStep xAxisNameDefined n st i a = Result.panic := by
  unfold attributeStep
  simp only [split_of_not_mem a ':' h, index, List.get?, bind, Result.bind, pure]
  cases xAxisNameDefined
  · by_cases h2 : i = n - 1
    · simp [h2]
    · by_cases h3 : a = typeKey <;> simp [h2, h3]
  · by_cases h1 : st.xAxisName = a
    · simp [h1]
    · by_cases h2 : i = n - 1
      · simp [h1, h2]
      · by_cases h3 : a = typeKey <;> simp [h1, h2, h3]

theorem applyClass_xAxisName (st : AttrState) (label : Option Str) (k v : Str) :
    (applyClass st (classify label false k) k v).xAxisName = st.xAxisName := by
  unfold classify
  by_cases h1 : label = some k
  · simp [h1, applyClass]
  · by_cases h3 : k = typeKey
    · subst h3
      simp [h1, applyClass]
    · simp [h1, h3, applyClass]

theorem attributesLoop_of_colons (xAxisNameDefined : Bool) (n : Nat) (as : List Str) :
    ∀ (i : Nat) (st : AttrState), (∀ a ∈ as, ':' ∈ a) → i + as.length = n →
      attributesLoop xAxisNameDefined n i as st =
        Result.ok (finalState st
          (classifyAll (if xAxisNameDefined then some st.xAxisName else none)
            (as.map (fun a => (attrKey a, attrValue a))))) := by
  induction as with
  | nil => intro i st _ _; simp [attributesLoop, classifyAll, finalState]
  | cons a rest ih =>
    intro i st hcol hlen
    have ha : ':' ∈ a := hcol a (by simp)
    have hrest : ∀ b ∈ rest, ':' ∈ b := fun b hb => hcol b (List.mem_cons_of_mem _ hb)
    simp only [attributesLoop, attributeStep_of_colon xAxisNameDefined n i st a ha]
    cases rest with
    | nil =>
      have hi : (i == n - 1) = true := by
        simp only [List.length_cons, List.length_nil] at hlen
        simp; omega
      simp [attributesLoop, classifyAll, finalState, hi]
    | cons b rest2 =>
      have hi : (i == n - 1) = false := by
        simp only [List.length_cons] at hlen
        simp; omega
      rw [hi]
      have hlen2 : (i + 1) + (b :: rest2).length = n := by
        simp only [List.length_cons] at hlen ⊢; omega
      rw [ih (i + 1) _ hrest hlen2, applyClass_xAxisName]
      simp [classifyAll, finalState]

theorem getLast?_cons_match {β : Type} (f : Str × Str → β) (d : β) (x : Str × Str)
    (l : List (Str × Str)) :
    (match (x :: l).getLast? with
      | some kv => f kv
      | none => d) =
    (match l.getLast? with
      | some kv => f kv
      | none => f x) := by
  cases l with
  | nil => simp
  | cons y l2 =>
    rw [List.getLast?_cons_cons]
    cases h : (y :: l2).getLast? with
    | some z => rfl
    | none => simp at h

theorem finalState_benchmarkAttributes (l : List (AttrClass × Str × Str)) :
    ∀ st : AttrState, (finalState st l).benchmarkAttributes =
      st.benchmarkAttributes ++ (withClass [AttrClass.discriminator] l).map renderDiscriminator := by
  induction l with
  | nil => intro st; simp [finalState, withClass]
  | cons x rest ih =>
    intro st
    obtain ⟨c, k, v⟩ := x
    cases c <;>
      simp [finalState, ih, applyClass, withClass, renderDiscriminator]

theorem finalState_caseName (l : List (AttrClass × Str × Str)) :
    ∀ st : AttrState, (finalState st l).caseName =
      (match (withClass [AttrClass.caseName] l).getLast? with
        | some kv => kv.2
        | none => st.caseName) := by
  induction l with
  | nil => intro st; simp [finalState, withClass]
  | cons x rest ih =>
    intro st
    obtain ⟨c, k, v⟩ := x
    cases c
    case caseName =>
      have := getLast?_cons_match (fun kv => kv.2) st.caseName (k, v)
        (withClass [AttrClass.caseName] rest)
      simpa [finalState, ih, applyClass, withClass] using this.symm
    all_goals simp [finalState, ih, applyClass, withClass]

theorem finalState_xAxisName (l : List (AttrClass × Str × Str)) :
    ∀ st : AttrState, (finalState st l).xAxisName =
      (match (withClass [AttrClass.xLast] l).getLast? with
        | some kv => kv.1
        | none => st.xAxisName) := by
  induction l with
  | nil => intro st; simp [finalState, withClass]
  | cons x rest ih =>
    intro st
    obtain ⟨c, k, v⟩ := x
    cases c
    case xLast =>
      have := getLast?_cons_match (fun kv => kv.1) st.xAxisName (k, v)
        (withClass [AttrClass.xLast] rest)
      simpa [finalState, ih, applyClass, withClass] using this.symm
    all_goals simp [finalState, ih, applyClass, withClass]

theorem finalState_xValue (l : List (AttrClass × Str × Str)) :
    ∀ st : AttrState, (finalState st l).xValue =
      (match (withClass [AttrClass.xKnown, AttrClass.xLast] l).getLast? with
        | some kv => kv.2
        | none => st.xValue) := by
  induction l with
  | nil => intro st; simp [finalState, withClass]
  | cons x rest ih =>
    intro st
    obtain ⟨c, k, v⟩ := x
    cases c
    case xLast =>
      have := getLast?_cons_match (fun kv => kv.2) st.xValue (k, v)
        (withClass [AttrClass.xKnown, AttrClass.xLast] rest)
      simpa [finalState, ih, applyClass, withClass] using this.symm
    case xKnown =>
      have := getLast?_cons_match (fun kv => kv.2) st.xValue (k, v)
        (withClass [AttrClass.xKnown, AttrClass.xLast] rest)
      simpa [finalState, ih, applyClass, withClass] using this.symm
    all_goals simp [finalState, ih, applyClass, withClass]

/-! ## `parseAttributes` in closed form -/

theorem cut_of_mem (s : Str) (sep : Char) (h : sep ∈ s) :
    cut s sep = ((cut s sep).1, (cut s sep).2.1, true) := by
  simp [cut, h]

theorem optionsGet_eq (options : Options) (base : Str) :
    optionsGet options base xAxisNameKey =
      ((knownLabel options base).getD [], (knownLabel options base).isSome) := by
  unfold optionsGet knownLabel
  cases mapGet options base with
  | none => rfl
  | some m =>
    simp only []
    cases mapGet m xAxisNameKey <;> rfl

theorem label_of_getD_isSome (label : Option Str) :
    (if label.isSome then some (label.getD []) else none) = label := by
  cases label <;> rfl

/-- On a cell with a `/`, a later `-` and a `:` in every attribute,
`parseAttributes` computes the decoding of the specification. -/
theorem parseAttributes_eq_decodeSpec (cell : Str) (options : Options)
    (h1 : '/' ∈ cell) (h2 : '-' ∈ cellRest cell) (h3 : ∀ a ∈ cellAttributes cell, ':' ∈ a) :
    parseAttributes cell options =
      decodeSpec (cellBase cell) (knownLabel options (cellBase cell)) (cellPairs cell) := by
  unfold parseAttributes
  rw [cut_of_mem cell '/' h1]
  simp only []
  have h2b : '-' ∈ (cut cell '/').2.1 := h2
  rw [cut_of_mem _ '-' h2b]
  simp only [optionsGet_eq]
  have hloop := attributesLoop_of_colons (knownLabel options (cellBase cell)).isSome
    (cellAttributes cell).length (cellAttributes cell) 0
    { caseName := [], xValue := [], xAxisName := (knownLabel options (cellBase cell)).getD [],
      benchmarkAttributes := [cellBase cell] } h3 (by simp)
  simp only [label_of_getD_isSome] at hloop
  simp only [cellAttributes, cellAttributeText, cellRest, cellBase] at hloop
  simp only [cellBase]
  rw [hloop]
  simp only [finalState_caseName, finalState_xValue, finalState_xAxisName,
    finalState_benchmarkAttributes]
  rfl

/-- The attribute loop panics as soon as some attribute has no `:`. -/
theorem attributesLoop_panics (xAxisNameDefined : Bool) (n : Nat) (as : List Str) :
    ∀ (i : Nat) (st : AttrState), (∃ a ∈ as, ':' ∉ a) →
      attributesLoop xAxisNameDefined n i as st = Result.panic := by
  induction as with
  | nil => intro i st h; simp at h
  | cons a rest ih =>
    intro i st h
    by_cases ha : ':' ∈ a
    · have hrest : ∃ b ∈ rest, ':' ∉ b := by
        obtain ⟨b, hb, hbc⟩ := h
        rcases List.mem_cons.mp hb with e | e
        · exact absurd (e ▸ ha) hbc
        · exact ⟨b, e, hbc⟩
      simp only [attributesLoop, attributeStep_of_colon xAxisNameDefined n i st a ha]
      exact ih _ _ hrest
    · simp only [attributesLoop, attributeStep_of_no_colon xAxisNameDefined n i st a ha]

/-- On a cell with a `/` and a later `-` in which some attribute has no `:`,
`parseAttributes` panics (index out of range at `attributeKeyAndValue[1]`). -/
theorem parseAttributes_panics (cell : Str) (options : Options)
    (h1 : '/' ∈ cell) (h2 : '-' ∈ cellRest cell) (h3 : ∃ a ∈ cellAttributes cell, ':' ∉ a) :
    parseAttributes cell options = Result.panic := by
  unfold parseAttributes
  rw [cut_of_mem cell '/' h1]
  simp only []
  have h2b : '-' ∈ (cut cell '/').2.1 := h2
  rw [cut_of_mem _ '-' h2b]
  simp only [optionsGet_eq]
  have hloop := attributesLoop_panics (knownLabel options (cellBase cell)).isSome
    (cellAttributes cell).length (cellAttributes cell) 0
    { caseName := [], xValue := [], xAxisName := (knownLabel options (cellBase cell)).getD [],
      benchmarkAttributes := [cellBase cell] } h3
  simp only [cellAttributes, cellAttributeText, cellRest, cellBase] at hloop
  rw [hloop]

theorem parseAttributes_no_slash (cell : Str) (options : Options) (h : '/' ∉ cell) :
    parseAttributes cell options = Result.error ErrCantParseBenchmarkName := by
  unfold parseAttributes
  rw [cut_of_not_mem cell '/' h]

theorem parseAttributes_no_dash (cell : Str) (options : Options) (h1 : '/' ∈ cell)
    (h2 : '-' ∉ cellRest cell) :
    parseAttributes cell options = Result.error ErrCantParseMeasurementAttributes := by
  unfold parseAttributes
  rw [cut_of_mem cell '/' h1]
  simp only []
  have h2b : '-' ∉ (cut cell '/').2.1 := h2
  rw [cut_of_not_mem _ '-' h2b]

theorem parseAttributes_ok_shape (cell : Str) (options : Options) (r : Attributes)
    (h : parseAttributes cell options = Result.ok r) :
    '/' ∈ cell ∧ '-' ∈ cellRest cell ∧ ∀ a ∈ cellAttributes cell, ':' ∈ a := by
  by_cases h1 : '/' ∈ cell
  · by_cases h2 : '-' ∈ cellRest cell
    · refine ⟨h1, h2, ?_⟩
      by_contra h3
      have h3b : ∃ a ∈ cellAttributes cell, ':' ∉ a := by
        simpa using h3
      rw [parseAttributes_panics cell options h1 h2 h3b] at h
      cases h
    · rw [parseAttributes_no_dash cell options h1 h2] at h
      cases h
  · rw [parseAttributes_no_slash cell options h1] at h
    cases h

/-! ## Cells written from (key, value) pairs -/

theorem split_renderAttribute (kv : Str × Str) (hk : ':' ∉ kv.1) (hv : ':' ∉ kv.2) :
    split (renderAttribute kv) ':' = [kv.1, kv.2] := by
  unfold renderAttribute
  rw [split_append_sep kv.1 kv.2 ':' hk, split_of_not_mem kv.2 ':' hv]

theorem not_mem_renderAttribute (kv : Str × Str) (c : Char) (hc : c ≠ ':')
    (hk : c ∉ kv.1) (hv : c ∉ kv.2) : c ∉ renderAttribute kv := by
  simp [renderAttribute, hk, hv, hc]

theorem cellBase_renderCell (base suffix : Str) (kvs : List (Str × Str)) (hbase : '/' ∉ base) :
    cellBase (renderCell base kvs suffix) = base := by
  simp [cellBase, renderCell, cut_append_sep base _ '/' hbase]

theorem cellRest_renderCell (base suffix : Str) (kvs : List (Str × Str)) (hbase : '/' ∉ base) :
    cellRest (renderCell base kvs suffix) =
      join (kvs.map renderAttribute) ';' ++ '-' :: suffix := by
  simp [cellRest, renderCell, cut_append_sep base _ '/' hbase]

theorem not_mem_attributeText (kvs : List (Str × Str))
    (hkv : ∀ kv ∈ kvs, plainText kv.1 ∧ plainText kv.2) :
    '-' ∉ join (kvs.map renderAttribute) ';' := by
  apply not_mem_join _ ';' '-' (by decide)
  intro e he
  obtain ⟨kv, hmem, rfl⟩ := List.mem_map.mp he
  exact not_mem_renderAttribute kv '-' (by decide) (hkv kv hmem).1.2.2 (hkv kv hmem).2.2.2

theorem cellAttributes_renderCell (base suffix : Str) (kvs : List (Str × Str))
    (hbase : '/' ∉ base) (hne : kvs ≠ [])
    (hkv : ∀ kv ∈ kvs, plainText kv.1 ∧ plainText kv.2) :
    cellAttributes (renderCell base kvs suffix) = kvs.map renderAttribute := by
  unfold cellAttributes cellAttributeText
  rw [cellRest_renderCell base suffix kvs hbase,
    cut_append_sep _ suffix '-' (not_mem_attributeText kvs hkv)]
  apply split_join _ ';' (by simpa using hne)
  intro e he
  obtain ⟨kv, hmem, rfl⟩ := List.mem_map.mp he
  exact not_mem_renderAttribute kv ';' (by decide) (hkv kv hmem).1.2.1 (hkv kv hmem).2.2.1

theorem cellPairs_renderCell (base suffix : Str) (kvs : List (Str × Str))
    (hbase : '/' ∉ base) (hne : kvs ≠ [])
    (hkv : ∀ kv ∈ kvs, plainText kv.1 ∧ plainText kv.2) :
    cellPairs (renderCell base kvs suffix) = kvs := by
  unfold cellPairs
  rw [cellAttributes_renderCell base suffix kvs hbase hne hkv, List.map_map]
  have : ∀ kv ∈ kvs,
      ((fun a => (attrKey a, attrValue a)) ∘ renderAttribute) kv = id kv := by
    intro kv hmem
    have hs := split_renderAttribute kv (hkv kv hmem).1.1 (hkv kv hmem).2.1
    simp [attrKey, attrValue, hs]
  rw [List.map_congr_left this, List.map_id]

theorem renderCell_shape (base suffix : Str) (kvs : List (Str × Str))
    (hbase : '/' ∉ base) (hne : kvs ≠ [])
    (hkv : ∀ kv ∈ kvs, plainText kv.1 ∧ plainText kv.2) :
    '/' ∈ renderCell base kvs suffix ∧ '-' ∈ cellRest (renderCell base kvs suffix) ∧
      ∀ a ∈ cellAttributes (renderCell base kvs suffix), ':' ∈ a := by
  refine ⟨by simp [renderCell], ?_, ?_⟩
  · rw [cellRest_renderCell base suffix kvs hbase]; simp
  · rw [cellAttributes_renderCell base suffix kvs hbase hne hkv]
    intro a ha
    obtain ⟨kv, _, rfl⟩ := List.mem_map.mp ha
    simp [renderAttribute]

/-! ## Claims on `parseAttributes` -/

/-- C1: on a cell `<base>/<attrs>-<suffix>` whose attributes are `key:value`
pairs, `parseAttributes` returns the decoding of the specification, which
is a function of the base name, the attributes and the X-axis label known
for the base name only (the suffix does not occur in it): the attributes
are classified left to right (known label, else last, else `type`, else
discriminator) and on success the chart identity is the base name followed
by the discriminators written `key=value`, joined by single spaces. -/
theorem parseAttributes_classifies (base suffix : Str) (kvs : List (Str × Str))
    (options : Options) (hbase : '/' ∉ base) (hne : kvs ≠ [])
    (hkv : ∀ kv ∈ kvs, plainText kv.1 ∧ plainText kv.2) :
    parseAttributes (renderCell base kvs suffix) options =
      decodeSpec base (knownLabel options base) kvs := by
  obtain ⟨h1, h2, h3⟩ := renderCell_shape base suffix kvs hbase hne hkv
  rw [parseAttributes_eq_decodeSpec _ options h1 h2 h3,
    cellBase_renderCell base suffix kvs hbase,
    cellPairs_renderCell base suffix kvs hbase hne hkv]

/-- Witness of C1: `Hash/type:crc32;bytes:4-8` with no known label yields
chart identity `Hash`, case `crc32`, X value `4` and X-axis label `bytes`. -/
theorem parseAttributes_classifies_witness :
    parseAttributes "Hash/type:crc32;bytes:4-8".toList [] =
      Result.ok ⟨"Hash".toList, "crc32".toList, "4".toList, "bytes".toList⟩ :=
  parseAttributes_classifies "Hash".toList "8".toList
    [("type".toList, "crc32".toList), ("bytes".toList, "4".toList)] []
    (by decide) (by decide) (by decide)

/-- C2 (the code at the claim's input): with the X-axis label of `Hash`
preset to `bytes`, the cell `Hash/type:crc32;bytes:4;mode:fast-8` yields
X value `fast`, X-axis label `mode` and chart identity `Hash`: the last
attribute overwrites the X value taken from `bytes:4` and is not folded
into the identity. -/
theorem parseAttributes_known_label_overwritten :
    parseAttributes "Hash/type:crc32;bytes:4;mode:fast-8".toList
        [("Hash".toList, [(xAxisNameKey, "bytes".toList)])] =
      Result.ok ⟨"Hash".toList, "crc32".toList, "fast".toList, "mode".toList⟩ := by
  decide

theorem join_cons_injective (b : Str) (xs ys : List Str) (sep : Char)
    (hx : ∀ x ∈ xs, sep ∉ x) (hy : ∀ y ∈ ys, sep ∉ y)
    (h : join (b :: xs) sep = join (b :: ys) sep) : xs = ys := by
  cases xs with
  | nil =>
    cases ys with
    | nil => rfl
    | cons y ys2 =>
      have := congrArg List.length h
      simp [join] at this
  | cons x xs2 =>
    cases ys with
    | nil =>
      have := congrArg List.length h
      simp [join] at this
    | cons y ys2 =>
      simp only [join, List.append_cancel_left_eq, List.cons.injEq, true_and] at h
      have h1 := split_join (x :: xs2) sep (by simp) hx
      have h2 := split_join (y :: ys2) sep (by simp) hy
      rw [h] at h1
      exact h1.symm.trans h2

theorem renderDiscriminator_injective (a b : Str × Str) (ha : '=' ∉ a.1) (hb : '=' ∉ b.1)
    (h : renderDiscriminator a = renderDiscriminator b) : a = b := by
  have h1 := cut_append_sep a.1 a.2 '=' ha
  have h2 := cut_append_sep b.1 b.2 '=' hb
  unfold renderDiscriminator at h
  rw [h, h2] at h1
  obtain ⟨a1, a2⟩ := a
  obtain ⟨b1, b2⟩ := b
  simp only [Prod.mk.injEq, and_true] at h1
  simp [h1.1, h1.2]

theorem map_renderDiscriminator_injective (xs : List (Str × Str)) :
    ∀ ys : List (Str × Str), (∀ x ∈ xs, '=' ∉ x.1) → (∀ y ∈ ys, '=' ∉ y.1) →
      xs.map renderDiscriminator = ys.map renderDiscriminator → xs = ys := by
  induction xs with
  | nil => intro ys _ _ h; cases ys with
    | nil => rfl
    | cons y ys2 => simp at h
  | cons x xs2 ih =>
    intro ys hx hy h
    cases ys with
    | nil => simp at h
    | cons y ys2 =>
      simp only [List.map_cons, List.cons.injEq] at h
      have e1 := renderDiscriminator_injective x y (hx x (by simp)) (hy y (by simp)) h.1
      have e2 := ih ys2 (fun a ha => hx a (List.mem_cons_of_mem _ ha))
        (fun a ha => hy a (List.mem_cons_of_mem _ ha)) h.2
      rw [e1, e2]

theorem parseAttributes_chartName (cell : Str) (options : Options) (r : Attributes)
    (h : parseAttributes cell options = Result.ok r) :
    r.chartName =
      join (cellBase cell :: (cellDiscriminators options cell).map renderDiscriminator) ' ' := by
  obtain ⟨h1, h2, h3⟩ := parseAttributes_ok_shape cell options r h
  rw [parseAttributes_eq_decodeSpec cell options h1 h2 h3] at h
  unfold decodeSpec at h
  split at h
  · cases h
  · cases h
    rfl

/-- C3 as stated fails: `Hash/a=b:c;type:t;x:1-8` and
`Hash/a:b=c;type:t;x:1-8` decode successfully under the same (empty)
options with the same base name and different discriminator lists
(`a=b`/`c` and `a`/`b=c`), and both get the chart identity `Hash a=b=c`. -/
theorem chartName_collision :
    ¬ (∀ (c1 c2 : Str) (options : Options) (r1 r2 : Attributes),
        parseAttributes c1 options = Result.ok r1 →
        parseAttributes c2 options = Result.ok r2 →
        cellBase c1 = cellBase c2 →
        cellDiscriminators options c1 ≠ cellDiscriminators options c2 →
        r1.chartName ≠ r2.chartName) := by
  intro h
  exact h "Hash/a=b:c;type:t;x:1-8".toList "Hash/a:b=c;type:t;x:1-8".toList []
    ⟨"Hash a=b=c".toList, "t".toList, "1".toList, "x".toList⟩
    ⟨"Hash a=b=c".toList, "t".toList, "1".toList, "x".toList⟩
    (by decide) (by decide) (by decide) (by decide) rfl

/-- C3, amended: two cells with the same base name that `parseAttributes`
decodes successfully under the same options, whose discriminators contain no
space and whose discriminator keys contain no `=`, get different chart
identities when their ordered discriminator lists differ. -/
theorem chartName_separates_discriminators (c1 c2 : Str) (options : Options)
    (r1 r2 : Attributes)
    (hd1 : parseAttributes c1 options = Result.ok r1)
    (hd2 : parseAttributes c2 options = Result.ok r2)
    (hbase : cellBase c1 = cellBase c2)
    (hr1 : ∀ kv ∈ cellDiscriminators options c1, readableDiscriminator kv)
    (hr2 : ∀ kv ∈ cellDiscriminators options c2, readableDiscriminator kv)
    (hne : cellDiscriminators options c1 ≠ cellDiscriminators options c2) :
    r1.chartName ≠ r2.chartName := by
  intro heq
  rw [parseAttributes_chartName c1 options r1 hd1,
    parseAttributes_chartName c2 options r2 hd2, hbase] at heq
  have hsp : ∀ (l : List (Str × Str)), (∀ kv ∈ l, readableDiscriminator kv) →
      ∀ x ∈ l.map renderDiscriminator, ' ' ∉ x := by
    intro l hl x hx
    obtain ⟨kv, hmem, rfl⟩ := List.mem_map.mp hx
    have := hl kv hmem
    simp [renderDiscriminator, this.1, this.2.2]
  have hmap := join_cons_injective _ _ _ ' ' (hsp _ hr1) (hsp _ hr2) heq
  exact hne (map_renderDiscriminator_injective _ _ (fun x hx => (hr1 x hx).2.1)
    (fun y hy => (hr2 y hy).2.1) hmap)

/-- Witness of C3, amended: `Hash/a:1;type:t;x:1-8` and
`Hash/a:2;type:t;x:1-8` decode to the chart identities `Hash a=1` and
`Hash a=2`, which differ. -/
theorem chartName_separates_discriminators_witness :
    parseAttributes "Hash/a:1;type:t;x:1-8".toList [] =
        Result.ok ⟨"Hash a=1".toList, "t".toList, "1".toList, "x".toList⟩ ∧
      parseAttributes "Hash/a:2;type:t;x:1-8".toList [] =
        Result.ok ⟨"Hash a=2".toList, "t".toList, "1".toList, "x".toList⟩ ∧
      ("Hash a=1".toList : Str) ≠ "Hash a=2".toList :=
  ⟨by decide, by decide,
    chartName_separates_discriminators "Hash/a:1;type:t;x:1-8".toList
      "Hash/a:2;type:t;x:1-8".toList []
      ⟨"Hash a=1".toList, "t".toList, "1".toList, "x".toList⟩
      ⟨"Hash a=2".toList, "t".toList, "1".toList, "x".toList⟩
      (by decide) (by decide) (by decide) (by decide) (by decide) (by decide)⟩

theorem withClass_caseName_nil (label : Option Str) (kvs : List (Str × Str))
    (h : ∀ kv ∈ kvs, kv.1 ≠ typeKey) :
    withClass [AttrClass.caseName] (classifyAll label kvs) = [] := by
  induction kvs with
  | nil => simp [classifyAll, withClass]
  | cons kv rest ih =>
    have hk : kv.1 ≠ typeKey := h kv (by simp)
    have hrest := ih (fun x hx => h x (List.mem_cons_of_mem _ hx))
    have hc : classify label rest.isEmpty kv.1 ≠ AttrClass.caseName := by
      unfold classify
      by_cases h1 : label = some kv.1
      · simp [h1]
      · by_cases h2 : rest.isEmpty = true <;> simp [h1, h2, hk]
    unfold withClass at hrest ⊢
    simp only [classifyAll, List.filter_cons, List.mem_singleton, hc, decide_False]
    simpa using hrest

/-- C4: a cell with a `/`, a later `-` and a `:` in every attribute, none of
whose attributes has the key `type`, fails with
`ErrMeasurementLineHasNoTypeAttribute`. -/
theorem parseAttributes_no_type (cell : Str) (options : Options)
    (h1 : '/' ∈ cell) (h2 : '-' ∈ cellRest cell) (h3 : ∀ a ∈ cellAttributes cell, ':' ∈ a)
    (h4 : ∀ a ∈ cellAttributes cell, attrKey a ≠ typeKey) :
    parseAttributes cell options = Result.error ErrMeasurementLineHasNoTypeAttribute := by
  rw [parseAttributes_eq_decodeSpec cell options h1 h2 h3]
  have hk : ∀ kv ∈ cellPairs cell, kv.1 ≠ typeKey := by
    intro kv hkv
    obtain ⟨a, ha, rfl⟩ := List.mem_map.mp hkv
    exact h4 a ha
  simp [decodeSpec, specCaseName, withClass_caseName_nil _ _ hk]

/-- Witness of C4: `Hash/types:crc32;bytes:4-8` fails with
`ErrMeasurementLineHasNoTypeAttribute`. -/
theorem parseAttributes_no_type_witness :
    parseAttributes "Hash/types:crc32;bytes:4-8".toList [] =
      Result.error ErrMeasurementLineHasNoTypeAttribute :=
  parseAttributes_no_type "Hash/types:crc32;bytes:4-8".toList []
    (by decide) (by decide) (by decide) (by decide)

theorem decodeSpec_not_cut_error (base : Str) (label : Option Str) (kvs : List (Str × Str)) :
    decodeSpec base label kvs ≠ Result.error ErrCantParseBenchmarkName ∧
      decodeSpec base label kvs ≠ Result.error ErrCantParseMeasurementAttributes := by
  unfold decodeSpec
  split <;> simp

/-- C5: `parseAttributes` fails with `ErrCantParseBenchmarkName` exactly
when the cell contains no `/`, and for a cell that contains a `/` it fails
with `ErrCantParseMeasurementAttributes` exactly when the text after the
first `/` contains no `-`. -/
theorem parseAttributes_cut_errors (cell : Str) (options : Options) :
    (parseAttributes cell options = Result.error ErrCantParseBenchmarkName ↔ '/' ∉ cell) ∧
      ('/' ∈ cell →
        (parseAttributes cell options = Result.error ErrCantParseMeasurementAttributes ↔
          '-' ∉ cellRest cell)) := by
  have key : '/' ∈ cell → '-' ∈ cellRest cell →
      parseAttributes cell options ≠ Result.error ErrCantParseBenchmarkName ∧
        parseAttributes cell options ≠ Result.error ErrCantParseMeasurementAttributes := by
    intro h1 h2
    by_cases h3 : ∀ a ∈ cellAttributes cell, ':' ∈ a
    · rw [parseAttributes_eq_decodeSpec cell options h1 h2 h3]
      exact decodeSpec_not_cut_error _ _ _
    · have h3b : ∃ a ∈ cellAttributes cell, ':' ∉ a := by simpa using h3
      rw [parseAttributes_panics cell options h1 h2 h3b]
      simp
  constructor
  · constructor
    · intro h hmem
      by_cases h2 : '-' ∈ cellRest cell
      · exact (key hmem h2).1 h
      · rw [parseAttributes_no_dash cell options hmem h2] at h
        cases h
    · exact parseAttributes_no_slash cell options
  · intro h1
    constructor
    · intro h h2
      exact (key h1 h2).2 h
    · exact parseAttributes_no_dash cell options h1

/-- Witness of C5: `Hash\type:crc32;bytes:4-8` has no `/` and fails with
`ErrCantParseBenchmarkName`; `Hash/type:crc32;bytes:4|8` has no `-` after
the `/` and fails with `ErrCantParseMeasurementAttributes`. -/
theorem parseAttributes_cut_errors_witness :
    parseAttributes "Hash\\type:crc32;bytes:4-8".toList [] =
        Result.error ErrCantParseBenchmarkName ∧
      parseAttributes "Hash/type:crc32;bytes:4|8".toList [] =
        Result.error ErrCantParseMeasurementAttributes :=
  ⟨(parseAttributes_cut_errors "Hash\\type:crc32;bytes:4-8".toList []).1.mpr (by decide),
    ((parseAttributes_cut_errors "Hash/type:crc32;bytes:4|8".toList []).2 (by decide)).mpr
      (by decide)⟩

/-- C6 (the code at a failing input): the attribute `bytes` of
`Hash/type:crc32;bytes-8` has no `:`; `parseAttributes` does not return an
error, it panics with an index out of range. -/
theorem parseAttributes_missing_colon_panics :
    parseAttributes "Hash/type:crc32;bytes-8".toList [] = Result.panic := by
  decide

/-! ## Claims on `parsePoint` -/

theorem parseYValue_eq {F : Type} (ops : FloatOps F) (cell : Str) (y : F)
    (h : ops.parseFloat cell = some y) : parseYValue ops cell = Result.ok y := by
  simp [parseYValue, h]

theorem parseErrorRate_percent {F : Type} (ops : FloatOps F) (p : Str) (hp : p ≠ []) :
    parseErrorRate ops (p ++ ['%']) =
      (match ops.parseFloat p with
        | none => Result.error ErrCantParseErrorRate
        | some r => Result.ok r) := by
  have hlen : ¬ (p.length + 1 < 2) := by
    have : 0 < p.length := List.length_pos.mpr hp
    omega
  unfold parseErrorRate
  simp [hlen]

theorem parseErrorRate_no_percent {F : Type} (ops : FloatOps F) (cell : Str)
    (h : cell.getLast? ≠ some '%') :
    parseErrorRate ops cell = Result.error ErrCantParseErrorRate := by
  unfold parseErrorRate
  simp [h]

theorem eq_dropLast_append_of_getLast? (cell : Str) (c : Char) (h : cell.getLast? = some c) :
    cell = cell.dropLast ++ [c] := by
  have hne : cell ≠ [] := by
    intro e; simp [e] at h
  have h2 := List.dropLast_append_getLast hne
  rw [List.getLast?_eq_getLast _ hne] at h
  simp only [Option.some.injEq] at h
  rw [h] at h2
  exact h2.symm

/-- The result of `parseErrorRate` on any cell, given that the empty text is
not a number. -/
theorem parseErrorRate_eq {F : Type} (ops : FloatOps F) (cell : Str)
    (hempty : ops.parseFloat [] = none) :
    parseErrorRate ops cell =
      (if cell.getLast? = some '%' then
        (match ops.parseFloat cell.dropLast with
          | none => Result.error ErrCantParseErrorRate
          | some r => Result.ok r)
      else Result.error ErrCantParseErrorRate) := by
  by_cases h : cell.getLast? = some '%'
  · rw [if_pos h]
    by_cases hp : cell.dropLast = []
    · have hc := eq_dropLast_append_of_getLast? cell '%' h
      rw [hp] at hc
      rw [hp, hempty, hc]
      simp [parseErrorRate]
    · have hc := eq_dropLast_append_of_getLast? cell '%' h
      have := parseErrorRate_percent ops cell.dropLast hp
      rw [← hc] at this
      exact this
  · rw [if_neg h]
    exact parseErrorRate_no_percent ops cell h

/-- C7: `parsePoint` fails with `ErrCantParseYValue` exactly when the Y cell
does not parse as a float; when the Y cell parses, it fails with
`ErrCantParseErrorRate` exactly when the error cell does not end with `%` or
the text before that final `%` does not parse as a float; in every other
case it succeeds.  `hempty` is the fact that `strconv.ParseFloat` rejects
the empty text. -/
theorem parsePoint_errors {F : Type} (ops : FloatOps F) (x y e : Str)
    (hempty : ops.parseFloat [] = none) :
    (parsePoint ops x y e = Result.error ErrCantParseYValue ↔ ops.parseFloat y = none) ∧
      (ops.parseFloat y ≠ none →
        (parsePoint ops x y e = Result.error ErrCantParseErrorRate ↔
          (e.getLast? ≠ some '%' ∨ ops.parseFloat e.dropLast = none))) ∧
      (ops.parseFloat y ≠ none → e.getLast? = some '%' → ops.parseFloat e.dropLast ≠ none →
        (parsePoint ops x y e).isOk = true) := by
  unfold parsePoint
  rw [parseErrorRate_eq ops e hempty]
  cases hy : ops.parseFloat y with
  | none => simp [parseYValue, hy, bind, Result.bind]
  | some yv =>
    by_cases hl : e.getLast? = some '%'
    · cases hr : ops.parseFloat e.dropLast with
      | none => simp [parseYValue, hy, hl, hr, bind, Result.bind]
      | some rv => simp [parseYValue, hy, hl, hr, bind, Result.bind, pure, Result.isOk]
    · simp [parseYValue, hy, hl, bind, Result.bind]

/-- Witness of C7, with the exact decimal operations: the Y cell
`4.GG13067E+00` fails with `ErrCantParseYValue`, the error cells `1` and
`1GG%` fail with `ErrCantParseErrorRate`, and `10.0` with `5%` succeeds. -/
theorem parsePoint_errors_witness :
    parsePoint decimalOps "4".toList "4.GG13067E+00".toList "1%".toList =
        Result.error ErrCantParseYValue ∧
      parsePoint decimalOps "4".toList "10.0".toList "1".toList =
        Result.error ErrCantParseErrorRate ∧
      parsePoint decimalOps "4".toList "10.0".toList "1GG%".toList =
        Result.error ErrCantParseErrorRate ∧
      (parsePoint decimalOps "4".toList "10.0".toList "5%".toList).isOk = true :=
  ⟨(parsePoint_errors decimalOps "4".toList "4.GG13067E+00".toList "1%".toList
      (by decide)).1.mpr (by decide),
    ((parsePoint_errors decimalOps "4".toList "10.0".toList "1".toList
      (by decide)).2.1 (by decide)).mpr (by decide),
    ((parsePoint_errors decimalOps "4".toList "10.0".toList "1GG%".toList
      (by decide)).2.1 (by decide)).mpr (by decide),
    (parsePoint_errors decimalOps "4".toList "10.0".toList "5%".toList
      (by decide)).2.2 (by decide) (by decide) (by decide)⟩

/-- C8: when the Y cell parses to `y` and the error cell is `p%` with `p`
parsing to `r`, `parsePoint` returns the point whose X and Y fields are the
given cells and whose error field is the text rendering of `y * (r / 100)`.
`hempty` is the fact that `strconv.ParseFloat` rejects the empty text. -/
theorem parsePoint_error_field {F : Type} (ops : FloatOps F) (x ycell p : Str) (y r : F)
    (hempty : ops.parseFloat [] = none)
    (hy : ops.parseFloat ycell = some y) (hr : ops.parseFloat p = some r) :
    parsePoint ops x ycell (p ++ ['%']) =
      Result.ok
        { X := x, Y := ycell,
          Error := ops.format (ops.mul y (ops.div r ops.percents)) } := by
  have hp : p ≠ [] := by
    intro e; rw [e, hempty] at hr; cases hr
  unfold parsePoint
  rw [parseYValue_eq ops ycell y hy, parseErrorRate_percent ops p hp, hr]
  rfl

/-- Witness of C8, with the exact decimal operations: for the Y cell `10.0`
and the error cell `5%` the error field is `0.5`. -/
theorem parsePoint_error_field_witness :
    parsePoint decimalOps "4".toList "10.0".toList "5%".toList =
      Result.ok ⟨"4".toList, "10.0".toList, "0.5".toList⟩ :=
  parsePoint_error_field decimalOps "4".toList "10.0".toList "5".toList (100, 1) (5, 0)
    (by decide) (by decide) (by decide)

/-! ## Claims on `applyOptionsToResults` -/

theorem hasPrefix_iff (s pre : Str) : hasPrefix s pre = true ↔ pre <+: s := by
  simp [hasPrefix, List.isPrefixOf_iff_prefix]

theorem applyOne_fst (p : Str) (om : OptionMap) (c : Str × BenchmarkResults) :
    (applyOne p om c).1 = c.1 := by
  unfold applyOne
  split <;> rfl

theorem applyToCharts_eq (p : Str) (om : OptionMap) (charts : Charts) :
    ∀ b : Bool, applyToCharts p om charts b =
      (charts.map (applyOne p om), b || charts.any (fun c => hasPrefix c.1 p)) := by
  induction charts with
  | nil => intro b; simp [applyToCharts]
  | cons c rest ih =>
    intro b
    obtain ⟨name, chart⟩ := c
    by_cases h : hasPrefix name p = true
    · simp [applyToCharts, applyOne, h, ih]
    · simp [applyToCharts, applyOne, h, ih]

theorem applyOptionsToResults_cons (p : Str) (om : OptionMap) (rest : Options)
    (charts : Charts) :
    applyOptionsToResults ((p, om) :: rest) charts =
      (if charts.any (fun c => hasPrefix c.1 p) then
        applyOptionsToResults rest (charts.map (applyOne p om))
      else Result.error ErrOptionChartNameNotFound) := by
  simp only [applyOptionsToResults, applyToCharts_eq, Bool.false_or]
  cases h : charts.any (fun c => hasPrefix c.1 p) <;> simp

theorem any_hasPrefix_iff (charts : Charts) (p : Str) :
    charts.any (fun c => hasPrefix c.1 p) = true ↔ ∃ c ∈ charts, p <+: c.1 := by
  rw [List.any_eq_true]
  constructor
  · rintro ⟨c, hc, hp⟩
    exact ⟨c, hc, (hasPrefix_iff c.1 p).mp hp⟩
  · rintro ⟨c, hc, hp⟩
    exact ⟨c, hc, (hasPrefix_iff c.1 p).mpr hp⟩

theorem exists_prefix_map_applyOne (charts : Charts) (p : Str) (om : OptionMap) (q : Str) :
    (∃ c ∈ charts.map (applyOne p om), q <+: c.1) ↔ ∃ c ∈ charts, q <+: c.1 := by
  constructor
  · rintro ⟨c, hc, hq⟩
    obtain ⟨c0, hc0, rfl⟩ := List.mem_map.mp hc
    exact ⟨c0, hc0, by rwa [applyOne_fst] at hq⟩
  · rintro ⟨c, hc, hq⟩
    exact ⟨applyOne p om c, List.mem_map.mpr ⟨c, hc, rfl⟩, by rwa [applyOne_fst]⟩

theorem applyOptionsToResults_error_iff (options : Options) :
    ∀ charts : Charts,
      applyOptionsToResults options charts = Result.error ErrOptionChartNameNotFound ↔
        ∃ p ∈ options, ∀ c ∈ charts, ¬ p.1 <+: c.1 := by
  induction options with
  | nil =>
    intro charts
    constructor
    · intro h; simp only [applyOptionsToResults] at h; cases h
    · rintro ⟨p, hp, _⟩; cases hp
  | cons p rest ih =>
    intro charts
    obtain ⟨pre, om⟩ := p
    rw [applyOptionsToResults_cons]
    by_cases h : charts.any (fun c => hasPrefix c.1 pre) = true
    · rw [if_pos h, ih]
      have hex := (any_hasPrefix_iff charts pre).mp h
      constructor
      · rintro ⟨q, hq, hno⟩
        refine ⟨q, List.mem_cons_of_mem _ hq, ?_⟩
        intro c hc hpre
        obtain ⟨c1, hc1, hp1⟩ := (exists_prefix_map_applyOne charts pre om q.1).mpr ⟨c, hc, hpre⟩
        exact hno c1 hc1 hp1
      · rintro ⟨q, hq, hno⟩
        rcases List.mem_cons.mp hq with e | e
        · subst e
          obtain ⟨c, hc, hp⟩ := hex
          exact absurd hp (hno c hc)
        · refine ⟨q, e, ?_⟩
          intro c hc hpre
          obtain ⟨c1, hc1, hp1⟩ :=
            (exists_prefix_map_applyOne charts pre om q.1).mp ⟨c, hc, hpre⟩
          exact hno c1 hc1 hp1
    · rw [if_neg h]
      simp only [true_iff]
      refine ⟨(pre, om), by simp, ?_⟩
      intro c hc hpre
      exact h ((any_hasPrefix_iff charts pre).mpr ⟨c, hc, hpre⟩)

theorem applyOptionsToResults_ok_or_error (options : Options) :
    ∀ charts : Charts,
      (applyOptionsToResults options charts).isOk = true ∨
        applyOptionsToResults options charts = Result.error ErrOptionChartNameNotFound := by
  induction options with
  | nil => intro charts; simp [applyOptionsToResults, Result.isOk]
  | cons p rest ih =>
    intro charts
    obtain ⟨pre, om⟩ := p
    rw [applyOptionsToResults_cons]
    by_cases h : charts.any (fun c => hasPrefix c.1 pre) = true
    · rw [if_pos h]; exact ih _
    · rw [if_neg h]; exact Or.inr rfl

/-- C9: `applyOptionsToResults` fails with `ErrOptionChartNameNotFound` if
and only if some supplied prefix is a prefix of the name of no chart; it
fails whenever a prefix is supplied and there are no charts, and it
succeeds whenever every supplied prefix matches at least one chart. -/
theorem applyOptionsToResults_fails_iff (options : Options) (charts : Charts) :
    (applyOptionsToResults options charts = Result.error ErrOptionChartNameNotFound ↔
        ∃ p ∈ options, ∀ c ∈ charts, ¬ p.1 <+: c.1) ∧
      (options ≠ [] →
        applyOptionsToResults options [] = Result.error ErrOptionChartNameNotFound) ∧
      ((∀ p ∈ options, ∃ c ∈ charts, p.1 <+: c.1) →
        (applyOptionsToResults options charts).isOk = true) := by
  refine ⟨applyOptionsToResults_error_iff options charts, ?_, ?_⟩
  · intro hne
    obtain ⟨p, rest, rfl⟩ := List.exists_cons_of_ne_nil hne
    exact (applyOptionsToResults_error_iff _ []).mpr ⟨p, by simp, by simp⟩
  · intro hall
    rcases applyOptionsToResults_ok_or_error options charts with h | h
    · exact h
    · obtain ⟨p, hp, hno⟩ := (applyOptionsToResults_error_iff options charts).mp h
      obtain ⟨c, hc, hpre⟩ := hall p hp
      exact absurd hpre (hno c hc)

/-- Witness of C9: the prefix `HashesBench` against the single chart `Hash`
fails with `ErrOptionChartNameNotFound`, and the prefix `Ha` succeeds. -/
theorem applyOptionsToResults_fails_iff_witness :
    applyOptionsToResults [("HashesBench".toList, [("xAxisType".toList, "log".toList)])]
        [("Hash".toList, hashChart)] = Result.error ErrOptionChartNameNotFound ∧
      (applyOptionsToResults [("Ha".toList, [("xAxisType".toList, "log".toList)])]
        [("Hash".toList, hashChart)]).isOk = true :=
  ⟨(applyOptionsToResults_fails_iff
      [("HashesBench".toList, [("xAxisType".toList, "log".toList)])]
      [("Hash".toList, hashChart)]).1.mpr (by decide),
    (applyOptionsToResults_fails_iff [("Ha".toList, [("xAxisType".toList, "log".toList)])]
      [("Hash".toList, hashChart)]).2.2 (by decide)⟩

theorem mapGet_mapSet {ν : Type} (m : List (Str × ν)) (k : Str) (v : ν) (k2 : Str) :
    mapGet (mapSet m k v) k2 = if k = k2 then some v else mapGet m k2 := by
  induction m with
  | nil => simp [mapSet, mapGet]
  | cons e rest ih =>
    obtain ⟨k1, v1⟩ := e
    by_cases h1 : k1 = k
    · subst h1
      by_cases h2 : k1 = k2 <;> simp [mapSet, mapGet, h2]
    · by_cases h2 : k1 = k2
      · subst h2
        simp [mapSet, mapGet, h1, Ne.symm h1]
      · simp [mapSet, mapGet, h1, h2, ih]

theorem mapGet_setOptions (om : OptionMap) (k v : Str) :
    ∀ co : OptionMap, (∀ v2, (k, v2) ∈ om → v2 = v) →
      ((∃ v2, (k, v2) ∈ om) ∨ mapGet co k = some v) →
      mapGet (setOptions co om) k = some v := by
  induction om with
  | nil =>
    intro co _ h
    rcases h with ⟨v2, hv2⟩ | h
    · cases hv2
    · simpa [setOptions] using h
  | cons e rest ih =>
    intro co hagree h
    obtain ⟨k1, v1⟩ := e
    have hagree2 : ∀ v2, (k, v2) ∈ rest → v2 = v :=
      fun v2 hv2 => hagree v2 (List.mem_cons_of_mem _ hv2)
    simp only [setOptions]
    apply ih _ hagree2
    by_cases hk : k1 = k
    · subst hk
      have hv : v1 = v := hagree v1 (by simp)
      right
      rw [mapGet_mapSet, if_pos rfl, hv]
    · rcases h with ⟨v2, hv2⟩ | h
      · left
        rcases List.mem_cons.mp hv2 with e | e
        · exact absurd (congrArg Prod.fst e).symm hk
        · exact ⟨v2, e⟩
      · right
        rw [mapGet_mapSet, if_neg hk]
        exact h

theorem mapGet_chartOptionsAfter (options : Options) (name k v : Str) :
    ∀ co : OptionMap,
      (∀ q ∈ options, q.1 <+: name → ∀ v2, (k, v2) ∈ q.2 → v2 = v) →
      ((∃ q ∈ options, q.1 <+: name ∧ ∃ v2, (k, v2) ∈ q.2) ∨ mapGet co k = some v) →
      mapGet (chartOptionsAfter options name co) k = some v := by
  induction options with
  | nil =>
    intro co _ h
    rcases h with ⟨q, hq, _⟩ | h
    · cases hq
    · simpa [chartOptionsAfter] using h
  | cons e rest ih =>
    intro co hagree h
    obtain ⟨pre, om⟩ := e
    have hagree2 : ∀ q ∈ rest, q.1 <+: name → ∀ v2, (k, v2) ∈ q.2 → v2 = v :=
      fun q hq => hagree q (List.mem_cons_of_mem _ hq)
    simp only [chartOptionsAfter]
    apply ih _ hagree2
    by_cases hpre : hasPrefix name pre = true
    · rw [if_pos hpre]
      have hp : pre <+: name := (hasPrefix_iff name pre).mp hpre
      by_cases hin : ∃ v2, (k, v2) ∈ om
      · right
        exact mapGet_setOptions om k v co (fun v2 hv2 => hagree (pre, om) (by simp) hp v2 hv2)
          (Or.inl hin)
      · rcases h with ⟨q, hq, hqp, hqk⟩ | h
        · rcases List.mem_cons.mp hq with e | e
          · subst e
            exact absurd hqk hin
          · exact Or.inl ⟨q, e, hqp, hqk⟩
        · right
          exact mapGet_setOptions om k v co
            (fun v2 hv2 => hagree (pre, om) (by simp) hp v2 hv2) (Or.inr h)
    · rw [if_neg hpre]
      rcases h with ⟨q, hq, hqp, hqk⟩ | h
      · rcases List.mem_cons.mp hq with e | e
        · subst e
          exact absurd ((hasPrefix_iff name pre).mpr hqp) hpre
        · exact Or.inl ⟨q, e, hqp, hqk⟩
      · exact Or.inr h

theorem applyOptionsToResults_ok_eq (options : Options) :
    ∀ charts charts2 : Charts, applyOptionsToResults options charts = Result.ok charts2 →
      charts2 = charts.map (fun c =>
        (c.1, { c.2 with Options := chartOptionsAfter options c.1 c.2.Options })) := by
  induction options with
  | nil =>
    intro charts charts2 h
    simp only [applyOptionsToResults, Result.ok.injEq] at h
    subst h
    simp [chartOptionsAfter]
  | cons e rest ih =>
    intro charts charts2 h
    obtain ⟨pre, om⟩ := e
    rw [applyOptionsToResults_cons] at h
    by_cases hany : charts.any (fun c => hasPrefix c.1 pre) = true
    · rw [if_pos hany] at h
      rw [ih _ _ h, List.map_map]
      apply List.map_congr_left
      intro c _
      by_cases hpre : hasPrefix c.1 pre = true
      · simp [applyOne, chartOptionsAfter, hpre]
      · simp [applyOne, chartOptionsAfter, hpre]
    · rw [if_neg hany] at h
      cases h

/-- C10 as stated fails: with the two prefixes `H` and `Ha`, both matching
the chart `Hash` and both naming the key `title`, `applyOptionsToResults`
succeeds and the chart keeps the title of the pair applied last, in either
order of application, so the other pair's value is not the chart's. -/
theorem applyOptionsToResults_conflict :
    applyOptionsToResults
        [("H".toList, [(titleKey, "A".toList)]), ("Ha".toList, [(titleKey, "B".toList)])]
        [("Hash".toList, hashChart)] =
      Result.ok [("Hash".toList,
        { hashChart with
          Options := [(xAxisNameKey, "bytes".toList), (titleKey, "B".toList)] })] ∧
    ¬ OverwritesAll
        [("H".toList, [(titleKey, "A".toList)]), ("Ha".toList, [(titleKey, "B".toList)])]
        [("Hash".toList,
          { hashChart with
            Options := [(xAxisNameKey, "bytes".toList), (titleKey, "B".toList)] })] ∧
    applyOptionsToResults
        [("Ha".toList, [(titleKey, "B".toList)]), ("H".toList, [(titleKey, "A".toList)])]
        [("Hash".toList, hashChart)] =
      Result.ok [("Hash".toList,
        { hashChart with
          Options := [(xAxisNameKey, "bytes".toList), (titleKey, "A".toList)] })] ∧
    ¬ OverwritesAll
        [("Ha".toList, [(titleKey, "B".toList)]), ("H".toList, [(titleKey, "A".toList)])]
        [("Hash".toList,
          { hashChart with
            Options := [(xAxisNameKey, "bytes".toList), (titleKey, "A".toList)] })] := by
  refine ⟨by decide, ?_, by decide, ?_⟩
  · intro h
    have := h ("H".toList, [(titleKey, "A".toList)]) (by simp) _ (List.mem_singleton.mpr rfl)
      (by decide) (titleKey, "A".toList) (by simp)
    revert this
    decide
  · intro h
    have := h ("Ha".toList, [(titleKey, "B".toList)]) (by simp) _ (List.mem_singleton.mpr rfl)
      (by decide) (titleKey, "B".toList) (by simp)
    revert this
    decide

/-- C10, amended: after a successful `applyOptionsToResults`, for every
supplied (prefix, optionMap) pair, every chart whose name starts with the
prefix and every key of optionMap on whose value all supplied pairs matching
that chart agree, the chart's options map the key to optionMap's value,
whatever the chart held for it before. -/
theorem applyOptionsToResults_overwrites (options : Options) (charts charts2 : Charts)
    (h : applyOptionsToResults options charts = Result.ok charts2) :
    ∀ c ∈ charts2, ∀ p ∈ options, p.1 <+: c.1 → ∀ kv ∈ p.2,
      (∀ q ∈ options, q.1 <+: c.1 → ∀ v2, (kv.1, v2) ∈ q.2 → v2 = kv.2) →
      mapGet c.2.Options kv.1 = some kv.2 := by
  intro c hc p hp hpre kv hkv hagree
  rw [applyOptionsToResults_ok_eq options charts charts2 h] at hc
  obtain ⟨c0, _, rfl⟩ := List.mem_map.mp hc
  exact mapGet_chartOptionsAfter options c0.1 kv.1 kv.2 c0.2.Options hagree
    (Or.inl ⟨p, hp, hpre, kv.2, hkv⟩)

/-- Witness of C10, amended: the pair (`Ha`, `xAxisName` = `size`) applied to
the chart `Hash`, created with the X-axis label `bytes`, leaves it with the
X-axis label `size`. -/
theorem applyOptionsToResults_overwrites_witness :
    applyOptionsToResults [("Ha".toList, [(xAxisNameKey, "size".toList)])]
        [("Hash".toList, hashChart)] =
      Result.ok [("Hash".toList,
        { hashChart with Options := [(xAxisNameKey, "size".toList)] })] ∧
    mapGet hashChart.Options xAxisNameKey = some "bytes".toList ∧
    mapGet
        ({ hashChart with Options := [(xAxisNameKey, "size".toList)] } :
          BenchmarkResults).Options xAxisNameKey = some "size".toList :=
  ⟨by decide, by decide,
    applyOptionsToResults_overwrites [("Ha".toList, [(xAxisNameKey, "size".toList)])]
      [("Hash".toList, hashChart)]
      [("Hash".toList, { hashChart with Options := [(xAxisNameKey, "size".toList)] })]
      (by decide)
      ("Hash".toList, { hashChart with Options := [(xAxisNameKey, "size".toList)] })
      (List.mem_singleton.mpr rfl)
      ("Ha".toList, [(xAxisNameKey, "size".toList)]) (List.mem_singleton.mpr rfl)
      (by decide) (xAxisNameKey, "size".toList) (List.mem_singleton.mpr rfl)
      (by
        intro q hq _ v2 hv2
        rw [List.mem_singleton.mp hq] at hv2
        exact (congrArg Prod.snd (List.mem_singleton.mp hv2)))⟩

theorem chartOptionsAfter_of_no_match (options : Options) (name : Str) :
    ∀ co : OptionMap, (∀ p ∈ options, ¬ p.1 <+: name) →
      chartOptionsAfter options name co = co := by
  induction options with
  | nil => intro co _; rfl
  | cons e rest ih =>
    intro co h
    obtain ⟨pre, om⟩ := e
    have hpre : ¬ hasPrefix name pre = true := fun hp =>
      h (pre, om) (by simp) ((hasPrefix_iff name pre).mp hp)
    simp only [chartOptionsAfter, if_neg hpre]
    exact ih co (fun p hp => h p (List.mem_cons_of_mem _ hp))

theorem mapGet_setOptions_of_not_named (om : OptionMap) (k : Str) :
    ∀ co : OptionMap, (∀ v, (k, v) ∉ om) → mapGet (setOptions co om) k = mapGet co k := by
  induction om with
  | nil => intro co _; rfl
  | cons e rest ih =>
    intro co h
    obtain ⟨k1, v1⟩ := e
    have hk : k1 ≠ k := fun e => h v1 (by simp [e])
    simp only [setOptions]
    rw [ih _ (fun v hv => h v (List.mem_cons_of_mem _ hv)), mapGet_mapSet, if_neg hk]

theorem mapGet_chartOptionsAfter_of_not_named (options : Options) (name k : Str) :
    ∀ co : OptionMap, (∀ p ∈ options, p.1 <+: name → ∀ v, (k, v) ∉ p.2) →
      mapGet (chartOptionsAfter options name co) k = mapGet co k := by
  induction options with
  | nil => intro co _; rfl
  | cons e rest ih =>
    intro co h
    obtain ⟨pre, om⟩ := e
    simp only [chartOptionsAfter]
    rw [ih _ (fun p hp => h p (List.mem_cons_of_mem _ hp))]
    by_cases hpre : hasPrefix name pre = true
    · rw [if_pos hpre]
      exact mapGet_setOptions_of_not_named om k co
        (h (pre, om) (by simp) ((hasPrefix_iff name pre).mp hpre))
    · rw [if_neg hpre]

theorem forall₂_map_right_of {α β : Type} (R : α → β → Prop) (f : α → β) (l : List α)
    (h : ∀ a ∈ l, R a (f a)) : List.Forall₂ R l (l.map f) := by
  induction l with
  | nil => exact List.Forall₂.nil
  | cons a rest ih =>
    exact List.Forall₂.cons (h a (by simp)) (ih (fun b hb => h b (List.mem_cons_of_mem _ hb)))

/-- C11: a successful `applyOptionsToResults` returns the same charts in the
same places, each with the same ID, name, Y-axis label and cases; a chart
whose name starts with none of the supplied prefixes keeps its options
mapping, and an option key named in no option map whose prefix matches the
chart keeps its value. -/
theorem applyOptionsToResults_frame (options : Options) (charts charts2 : Charts)
    (h : applyOptionsToResults options charts = Result.ok charts2) :
    List.Forall₂ (Framed options) charts charts2 := by
  rw [applyOptionsToResults_ok_eq options charts charts2 h]
  apply forall₂_map_right_of
  intro c _
  refine ⟨rfl, rfl, rfl, rfl, rfl, ?_, ?_⟩
  · intro hno
    exact chartOptionsAfter_of_no_match options c.1 c.2.Options hno
  · intro k hk
    exact mapGet_chartOptionsAfter_of_not_named options c.1 k c.2.Options hk

/-- Witness of C11: the pair (`Ha`, `title` = `A`) applied to the charts
`Hash` and `Sum` leaves `Sum` as it was and leaves the X-axis label of both
unchanged. -/
theorem applyOptionsToResults_frame_witness :
    List.Forall₂ (Framed [("Ha".toList, [(titleKey, "A".toList)])])
      [("Hash".toList, hashChart), ("Sum".toList, hashChart)]
      [("Hash".toList,
          { hashChart with Options := [(xAxisNameKey, "bytes".toList), (titleKey, "A".toList)] }),
        ("Sum".toList, hashChart)] :=
  applyOptionsToResults_frame [("Ha".toList, [(titleKey, "A".toList)])]
    [("Hash".toList, hashChart), ("Sum".toList, hashChart)] _ (by decide)

/-! ## The scanning loop in closed form -/

theorem lineStep_blank {F : Type} (ops : FloatOps F) (sha256Hex : Str → Str)
    (options : Options) (st : ScanState) (text : Str) (h : trimSpace text = []) :
    lineStep ops sha256Hex options st text = Result.ok (true, st) := by
  simp [lineStep, h]

theorem lineStep_name {F : Type} (ops : FloatOps F) (sha256Hex : Str → Str)
    (options : Options) (st : ScanState) (text : Str) (h : trimSpace text ≠ [])
    (hname : hasPrefix (trimSpace text) nameToken = true) (hfirst : st.firstLine ≠ []) :
    lineStep ops sha256Hex options st text = Result.ok (false, st) := by
  simp [lineStep, h, hname, hfirst]

theorem lineStep_header {F : Type} (ops : FloatOps F) (sha256Hex : Str → Str)
    (options : Options) (st : ScanState) (text : Str) (h : trimSpace text ≠ [])
    (hfirst : st.firstLine = []) :
    lineStep ops sha256Hex options st text =
      (if (split (trimSpace text) ',').length < 3 then Result.error ErrNotEnoughColumns
       else Result.ok (true,
         { st with firstLine := trimSpace text, yAxisLabel := headerLabel (trimSpace text) })) := by
  unfold lineStep
  simp only [List.length_eq_zero, h, if_false, hfirst, bne_self_eq_false, Bool.and_false,
    if_true, minNumberOfCellsInOneRow, Bool.false_eq_true]
  by_cases hlen : (split (trimSpace text) ',').length < 3
  · simp [hlen]
  · simp only [hlen, if_false]
    match hs : split (trimSpace text) ',' with
    | [] => simp [hs] at hlen
    | [a] => simp [hs] at hlen
    | a :: b :: rest =>
      simp [index, headerLabel, hs, bind, Result.bind, pure]

theorem lineStep_data {F : Type} (ops : FloatOps F) (sha256Hex : Str → Str)
    (options : Options) (st : ScanState) (text : Str) (h : trimSpace text ≠ [])
    (hname : hasPrefix (trimSpace text) nameToken = false) (hfirst : st.firstLine ≠ []) :
    lineStep ops sha256Hex options st text =
      (match decodeRow ops options (trimSpace text) with
        | Result.ok row =>
          Result.ok (true,
            { st with
              benchmarkToCases :=
                (addRow sha256Hex st.yAxisLabel
                  (st.benchmarkToCases, st.benchmarkNamesOrder) row).1,
              benchmarkNamesOrder :=
                (addRow sha256Hex st.yAxisLabel
                  (st.benchmarkToCases, st.benchmarkNamesOrder) row).2 })
        | Result.error e => Result.error e
        | Result.panic => Result.panic) := by
  unfold lineStep decodeRow
  simp only [List.length_eq_zero, h, if_false, hname, Bool.false_and, hfirst,
    minNumberOfCellsInOneRow, Bool.false_eq_true]
  match hs : split (trimSpace text) ',' with
  | [] => simp
  | [a] => simp
  | [a, b] => simp
  | a :: b :: c :: rest =>
    simp only [List.length_cons, index, List.get?, bind, Result.bind, pure]
    have hlen : ¬ (rest.length + 1 + 1 + 1 < 3) := by omega
    simp only [hlen, if_false]
    cases hpa : parseAttributes a options with
    | error e => rfl
    | panic => rfl
    | ok attrs =>
      simp only []
      cases hpp : parsePoint ops attrs.xValue b c with
      | error e => rfl
      | panic => rfl
      | ok point =>
        simp only [addRow]

theorem nonBlankLines_cons_blank (text : Str) (rest : List Str) (h : trimSpace text = []) :
    nonBlankLines (text :: rest) = nonBlankLines rest := by
  simp [nonBlankLines, h]

theorem nonBlankLines_cons (text : Str) (rest : List Str) (h : trimSpace text ≠ []) :
    nonBlankLines (text :: rest) = trimSpace text :: nonBlankLines rest := by
  simp [nonBlankLines, h]

theorem nonBlankLines_append (a b : List Str) :
    nonBlankLines (a ++ b) = nonBlankLines a ++ nonBlankLines b := by
  simp [nonBlankLines]

theorem scanLines_data {F : Type} (ops : FloatOps F) (sha256Hex : Str → Str)
    (options : Options) (inputLines : List Str) :
    ∀ st : ScanState, st.firstLine ≠ [] →
      scanLines ops sha256Hex options inputLines st =
        (match decodeRows ops options
            ((nonBlankLines inputLines).takeWhile (fun l => !hasPrefix l nameToken)) with
          | Result.ok rows =>
            Result.ok
              { st with
                benchmarkToCases :=
                  (rows.foldl (addRow sha256Hex st.yAxisLabel)
                    (st.benchmarkToCases, st.benchmarkNamesOrder)).1,
                benchmarkNamesOrder :=
                  (rows.foldl (addRow sha256Hex st.yAxisLabel)
                    (st.benchmarkToCases, st.benchmarkNamesOrder)).2 }
          | Result.error e => Result.error e
          | Result.panic => Result.panic) := by
  induction inputLines with
  | nil => intro st _; simp [scanLines, nonBlankLines, decodeRows]
  | cons text rest ih =>
    intro st hfirst
    by_cases hb : trimSpace text = []
    · rw [nonBlankLines_cons_blank text rest hb]
      simp only [scanLines, lineStep_blank ops sha256Hex options st text hb]
      exact ih st hfirst
    · rw [nonBlankLines_cons text rest hb]
      by_cases hname : hasPrefix (trimSpace text) nameToken = true
      · simp [scanLines, lineStep_name ops sha256Hex options st text hb hname hfirst,
          hname, decodeRows]
      · have hname2 : hasPrefix (trimSpace text) nameToken = false := by
          simpa using hname
        simp only [scanLines, lineStep_data ops sha256Hex options st text hb hname2 hfirst,
          List.takeWhile_cons, hname2, Bool.not_false, if_true, decodeRows]
        cases hd : decodeRow ops options (trimSpace text) with
        | error e => rfl
        | panic => rfl
        | ok row =>
          simp only []
          refine (ih _ ?_).trans ?_
          · exact hfirst
          · cases hds : decodeRows ops options
                ((nonBlankLines rest).takeWhile (fun l => !hasPrefix l nameToken)) with
            | error e => rfl
            | panic => rfl
            | ok rows => rfl

/-- The scanning loop from the initial state: nothing happens on an input
without a non-blank line; otherwise the first non-blank line is the header,
which must have three cells, and the data lines are decoded and added in
order. -/
theorem scanLines_initial {F : Type} (ops : FloatOps F) (sha256Hex : Str → Str)
    (options : Options) (inputLines : List Str) :
    scanLines ops sha256Hex options inputLines initialScanState =
      (match nonBlankLines inputLines with
        | [] => Result.ok initialScanState
        | header :: _ =>
          if (split header ',').length < 3 then Result.error ErrNotEnoughColumns
          else
            match decodeRows ops options (dataLines inputLines) with
            | Result.ok rows =>
              Result.ok
                { benchmarkToCases := (aggregateRows sha256Hex (headerLabel header) rows).1,
                  benchmarkNamesOrder := (aggregateRows sha256Hex (headerLabel header) rows).2,
                  firstLine := header, yAxisLabel := headerLabel header }
            | Result.error e => Result.error e
            | Result.panic => Result.panic) := by
  induction inputLines with
  | nil => simp [scanLines, nonBlankLines]
  | cons text rest ih =>
    by_cases hb : trimSpace text = []
    · simp only [scanLines, lineStep_blank ops sha256Hex options _ text hb]
      rw [ih]
      simp only [dataLines, nonBlankLines_cons_blank text rest hb]
    · have hfirst : initialScanState.firstLine = [] := rfl
      simp only [scanLines, lineStep_header ops sha256Hex options _ text hb hfirst,
        dataLines, nonBlankLines_cons text rest hb, List.tail_cons]
      by_cases hlen : (split (trimSpace text) ',').length < 3
      · simp [hlen]
      · simp only [hlen, if_false]
        rw [scanLines_data ops sha256Hex options rest _ hb]
        rfl

/-! ## First occurrences and tabulated maps -/

theorem mem_firstSeen (l : List Str) (x : Str) : x ∈ firstSeen l ↔ x ∈ l := by
  induction l with
  | nil => simp [firstSeen]
  | cons a t ih =>
    by_cases h : x = a
    · simp [firstSeen, h]
    · simp [firstSeen, h, ih]

theorem firstSeen_nodup (l : List Str) : (firstSeen l).Nodup := by
  induction l with
  | nil => simp [firstSeen]
  | cons a t ih =>
    simp only [firstSeen, List.nodup_cons]
    exact ⟨by simp, ih.filter _⟩

theorem firstSeen_append_singleton (l : List Str) (x : Str) :
    firstSeen (l ++ [x]) = if x ∈ l then firstSeen l else firstSeen l ++ [x] := by
  induction l with
  | nil => simp [firstSeen]
  | cons a t ih =>
    rw [List.cons_append, firstSeen, ih, firstSeen]
    by_cases hxa : x = a
    · subst hxa
      by_cases hxt : x ∈ t <;> simp [hxt, List.filter_append]
    · by_cases hxt : x ∈ t
      · simp [hxt, hxa]
      · simp [hxt, hxa, List.filter_append]

theorem mapGet_tab {ν : Type} (names : List Str) (f : Str → ν) (n : Str) :
    mapGet (tab names f) n = if n ∈ names then some (f n) else none := by
  induction names with
  | nil => simp [tab, mapGet]
  | cons a t ih =>
    unfold tab at ih ⊢
    by_cases h : a = n
    · simp [mapGet, h]
    · have h2 : ¬ n = a := fun e => h e.symm
      simp [mapGet, h, h2, ih]

theorem tab_congr {ν : Type} (names : List Str) (f g : Str → ν)
    (h : ∀ n ∈ names, f n = g n) : tab names f = tab names g := by
  unfold tab
  apply List.map_congr_left
  intro n hn
  rw [h n hn]

theorem mapSet_tab {ν : Type} (names : List Str) (f : Str → ν) (n : Str) (v : ν)
    (hnd : names.Nodup) :
    mapSet (tab names f) n v =
      tab (if n ∈ names then names else names ++ [n]) (fun m => if m = n then v else f m) := by
  induction names with
  | nil => simp [tab, mapSet]
  | cons a t ih =>
    have hat : a ∉ t := (List.nodup_cons.mp hnd).1
    have hnt : t.Nodup := (List.nodup_cons.mp hnd).2
    by_cases h : a = n
    · subst h
      have hc : tab t (fun m => if m = a then v else f m) = tab t f :=
        tab_congr t _ _ (fun m hm => by
          have : m ≠ a := fun e => hat (e ▸ hm)
          simp [this])
      have : tab (a :: t) (fun m => if m = a then v else f m) = (a, v) :: tab t f := by
        rw [← hc]; simp [tab]
      simp only [List.mem_cons, true_or, if_true, this]
      simp [tab, mapSet]
    · have h2 : ¬ n = a := fun e => h e.symm
      have ih2 := ih hnt
      unfold tab at ih2 ⊢
      simp only [List.map_cons, mapSet, h, if_false, ih2, List.mem_cons, h2, false_or]
      by_cases hn : n ∈ t
      · simp [hn, h]
      · simp [hn, h]

theorem tab_map_fst {ν : Type} (names : List Str) (f : Str → ν) :
    (tab names f).map (fun e => e.1) = names := by
  simp [tab, Function.comp_def]

/-! ## Rows added one after the other -/

theorem caseNamesOf_append_singleton (rows : List Row) (r : Row) (n : Str) :
    caseNamesOf (rows ++ [r]) n =
      caseNamesOf rows n ++ (if r.chartName = n then [r.caseName] else []) := by
  unfold caseNamesOf
  by_cases h : r.chartName = n <;> simp [List.filter_append, List.filter_cons, h]

theorem pointsOf_append_singleton (rows : List Row) (r : Row) (n k : Str) :
    pointsOf (rows ++ [r]) n k =
      pointsOf rows n k ++ (if r.chartName = n ∧ r.caseName = k then [r.point] else []) := by
  unfold pointsOf
  by_cases h : r.chartName = n ∧ r.caseName = k
  · simp [List.filter_append, List.filter_cons, h]
  · simp only [List.filter_append, List.filter_cons, h, decide_False, List.filter_nil,
      List.append_nil, if_false, Bool.false_eq_true]

theorem pointsOf_eq_nil (rows : List Row) (n k : Str) (h : k ∉ caseNamesOf rows n) :
    pointsOf rows n k = [] := by
  unfold pointsOf
  rw [List.map_eq_nil_iff, List.filter_eq_nil_iff]
  intro r hr hrk
  simp only [decide_eq_true_eq] at hrk
  apply h
  unfold caseNamesOf
  exact List.mem_map.mpr ⟨r, List.mem_filter.mpr ⟨hr, by simp [hrk.1]⟩, hrk.2⟩

theorem caseNamesOf_eq_nil (rows : List Row) (n : Str)
    (h : n ∉ rows.map (fun r => r.chartName)) : caseNamesOf rows n = [] := by
  unfold caseNamesOf
  rw [List.map_eq_nil_iff, List.filter_eq_nil_iff]
  intro r hr hrn
  simp only [decide_eq_true_eq] at hrn
  exact h (List.mem_map.mpr ⟨r, hr, hrn⟩)

theorem firstXAxisName_append_singleton (rows : List Row) (r : Row) (n : Str) :
    firstXAxisName (rows ++ [r]) n =
      if n ∈ rows.map (fun r => r.chartName) then firstXAxisName rows n
      else if r.chartName = n then r.xAxisName else [] := by
  induction rows with
  | nil =>
    by_cases h : r.chartName = n <;> simp [firstXAxisName, List.find?, h]
  | cons a t ih =>
    unfold firstXAxisName at ih ⊢
    by_cases ha : a.chartName = n
    · simp [List.find?, ha]
    · have ha2 : ¬ n = a.chartName := fun e => ha e.symm
      simp only [List.cons_append, List.find?, ha, decide_False, List.map_cons,
        List.mem_cons, ha2, false_or]
      exact ih

theorem firstXAxisName_eq_nil (rows : List Row) (n : Str)
    (h : n ∉ rows.map (fun r => r.chartName)) : firstXAxisName rows n = [] := by
  unfold firstXAxisName
  have : rows.find? (fun r => decide (r.chartName = n)) = none := by
    rw [List.find?_eq_none]
    intro r hr hrn
    simp only [decide_eq_true_eq] at hrn
    exact h (List.mem_map.mpr ⟨r, hr, hrn⟩)
  rw [this]

theorem chartOf_append_other (sha256Hex : Str → Str) (y : Str) (rows : List Row) (r : Row)
    (m : Str) (h : m ≠ r.chartName) :
    chartOf sha256Hex y (rows ++ [r]) m = chartOf sha256Hex y rows m := by
  have h2 : ¬ r.chartName = m := fun e => h e.symm
  have hc : caseNamesOf (rows ++ [r]) m = caseNamesOf rows m := by
    rw [caseNamesOf_append_singleton, if_neg h2, List.append_nil]
  have hp : pointsOf (rows ++ [r]) m = pointsOf rows m := by
    funext k
    rw [pointsOf_append_singleton, if_neg (fun e => h2 e.1), List.append_nil]
  have hx : firstXAxisName (rows ++ [r]) m = firstXAxisName rows m := by
    rw [firstXAxisName_append_singleton]
    by_cases hm : m ∈ rows.map (fun r => r.chartName)
    · rw [if_pos hm]
    · rw [if_neg hm, if_neg h2, firstXAxisName_eq_nil rows m hm]
  simp only [chartOf, hc, hp, hx]

theorem getD_mapGet_cases (rows : List Row) (n k : Str) :
    (mapGet (tab (firstSeen (caseNamesOf rows n)) (pointsOf rows n)) k).getD [] =
      pointsOf rows n k := by
  rw [mapGet_tab]
  by_cases h : k ∈ firstSeen (caseNamesOf rows n)
  · simp [h]
  · have h2 : k ∉ caseNamesOf rows n := fun e => h ((mem_firstSeen _ _).mpr e)
    simp [h, pointsOf_eq_nil rows n k h2]

theorem cases_append_singleton (rows : List Row) (r : Row) :
    mapSet (tab (firstSeen (caseNamesOf rows r.chartName)) (pointsOf rows r.chartName))
        r.caseName (pointsOf rows r.chartName r.caseName ++ [r.point]) =
      tab (firstSeen (caseNamesOf (rows ++ [r]) r.chartName))
        (pointsOf (rows ++ [r]) r.chartName) := by
  rw [mapSet_tab _ _ _ _ (firstSeen_nodup _), caseNamesOf_append_singleton, if_pos rfl,
    firstSeen_append_singleton]
  have hcond : (r.caseName ∈ firstSeen (caseNamesOf rows r.chartName)) ↔
      (r.caseName ∈ caseNamesOf rows r.chartName) := mem_firstSeen _ _
  have hf : (fun m => if m = r.caseName then
        pointsOf rows r.chartName r.caseName ++ [r.point]
      else pointsOf rows r.chartName m) = pointsOf (rows ++ [r]) r.chartName := by
    funext m
    rw [pointsOf_append_singleton]
    by_cases hm : m = r.caseName
    · subst hm; simp
    · have hm2 : ¬ r.caseName = m := fun e => hm e.symm
      simp [hm, hm2]
  rw [hf]
  by_cases hk : r.caseName ∈ caseNamesOf rows r.chartName
  · rw [if_pos (hcond.mpr hk), if_pos hk]
  · rw [if_neg (fun e => hk (hcond.mp e)), if_neg hk]

theorem addRow_tab (sha256Hex : Str → Str) (y : Str) (rows : List Row) (r : Row) :
    addRow sha256Hex y
        (tab (firstSeen (rows.map (fun r => r.chartName))) (chartOf sha256Hex y rows),
          firstSeen (rows.map (fun r => r.chartName))) r =
      (tab (firstSeen ((rows ++ [r]).map (fun r => r.chartName)))
          (chartOf sha256Hex y (rows ++ [r])),
        firstSeen ((rows ++ [r]).map (fun r => r.chartName))) := by
  have hnames : (rows ++ [r]).map (fun r => r.chartName) =
      rows.map (fun r => r.chartName) ++ [r.chartName] := by simp
  rw [hnames, firstSeen_append_singleton]
  have hcond : (r.chartName ∈ firstSeen (rows.map (fun r => r.chartName))) ↔
      (r.chartName ∈ rows.map (fun r => r.chartName)) := mem_firstSeen _ _
  unfold addRow
  simp only [mapGet_tab]
  by_cases hn : r.chartName ∈ rows.map (fun r => r.chartName)
  · have hn1 := hcond.mpr hn
    simp only [hn1, if_true, hn]
    have hchart : ({ chartOf sha256Hex y rows r.chartName with
          Cases := mapSet (chartOf sha256Hex y rows r.chartName).Cases r.caseName
            ((mapGet (chartOf sha256Hex y rows r.chartName).Cases r.caseName).getD [] ++
              [r.point]) } : BenchmarkResults) =
        chartOf sha256Hex y (rows ++ [r]) r.chartName := by
      have hx : firstXAxisName (rows ++ [r]) r.chartName = firstXAxisName rows r.chartName := by
        rw [firstXAxisName_append_singleton, if_pos hn]
      simp only [chartOf, getD_mapGet_cases, cases_append_singleton, hx]
    rw [hchart, mapSet_tab _ _ _ _ (firstSeen_nodup _), if_pos hn1]
    congr 1
    apply tab_congr
    intro m _
    by_cases hm : m = r.chartName
    · simp [hm]
    · simp only [hm, if_false]
      exact (chartOf_append_other sha256Hex y rows r m hm).symm
  · have hn1 : r.chartName ∉ firstSeen (rows.map (fun r => r.chartName)) :=
      fun e => hn (hcond.mp e)
    simp only [hn1, if_false, hn]
    have hchart : ({ initBenchResult sha256Hex r.chartName r.xAxisName y with
          Cases := mapSet (initBenchResult sha256Hex r.chartName r.xAxisName y).Cases
            r.caseName
            ((mapGet (initBenchResult sha256Hex r.chartName r.xAxisName y).Cases
              r.caseName).getD [] ++ [r.point]) } : BenchmarkResults) =
        chartOf sha256Hex y (rows ++ [r]) r.chartName := by
      have hx : firstXAxisName (rows ++ [r]) r.chartName = r.xAxisName := by
        rw [firstXAxisName_append_singleton, if_neg hn, if_pos rfl]
      have hc := cases_append_singleton rows r
      rw [caseNamesOf_eq_nil rows r.chartName hn,
        pointsOf_eq_nil rows r.chartName r.caseName
          (by rw [caseNamesOf_eq_nil rows r.chartName hn]; simp)] at hc
      simp only [chartOf, hx, ← hc]
      simp [initBenchResult, firstSeen, tab, mapGet]
    rw [hchart, mapSet_tab _ _ _ _ (firstSeen_nodup _), if_neg hn1]
    congr 1
    apply tab_congr
    intro m _
    by_cases hm : m = r.chartName
    · simp [hm]
    · simp only [hm, if_false]
      exact (chartOf_append_other sha256Hex y rows r m hm).symm

/-- The charts after the rows `rows`: one chart per distinct chart identity,
in the order of first occurrence, holding the chart these rows build. -/
theorem aggregateRows_eq (sha256Hex : Str → Str) (y : Str) (rows : List Row) :
    aggregateRows sha256Hex y rows =
      (tab (firstSeen (rows.map (fun r => r.chartName))) (chartOf sha256Hex y rows),
        firstSeen (rows.map (fun r => r.chartName))) := by
  induction rows using List.reverseRecOn with
  | nil => simp [aggregateRows, firstSeen, tab]
  | append_singleton l r ih =>
    unfold aggregateRows at ih ⊢
    rw [List.foldl_append, ih]
    simp only [List.foldl_cons, List.foldl_nil]
    exact addRow_tab sha256Hex y l r

/-! ## `parseBenchmarkResultsFromInputFile` in closed form -/

theorem map_mapGet_tab {ν : Type} (names : List Str) (f : Str → ν) :
    names.map (fun n => mapGet (tab names f) n) = names.map (fun n => some (f n)) := by
  apply List.map_congr_left
  intro n hn
  rw [mapGet_tab, if_pos hn]

theorem map_tab {ν μ : Type} (names : List Str) (f : Str → ν) (g : Str → ν → μ) :
    (tab names f).map (fun c => (c.1, g c.1 c.2)) = tab names (fun n => g n (f n)) := by
  simp [tab, Function.comp_def]

/-- The result of a successful aggregation: the data lines all decode, and
the returned list holds, for every distinct chart identity of the decoded
rows in the order of first occurrence, the chart these rows build with the
options applied. -/
theorem parseBenchmarkResults_ok {F : Type} (ops : FloatOps F) (sha256Hex : Str → Str)
    (inputLines : List Str) (options : Options) (result : List (Option BenchmarkResults))
    (h : parseBenchmarkResultsFromInputFile ops sha256Hex inputLines options =
      Result.ok result) :
    ∃ rows, decodeRows ops options (dataLines inputLines) = Result.ok rows ∧
      result = (firstSeen (rows.map (fun r => r.chartName))).map (fun n =>
        some (finalChart sha256Hex (inputLabel inputLines) options rows n)) := by
  unfold parseBenchmarkResultsFromInputFile at h
  rw [scanLines_initial] at h
  cases hnb : nonBlankLines inputLines with
  | nil =>
    rw [hnb] at h
    simp only [initialScanState] at h
    refine ⟨[], by simp [dataLines, hnb, decodeRows], ?_⟩
    cases ha : applyOptionsToResults options [] with
    | error e => rw [ha] at h; cases h
    | panic => rw [ha] at h; cases h
    | ok charts2 =>
      rw [ha] at h
      simp only [List.map_nil, Result.ok.injEq] at h
      simp [firstSeen, ← h]
  | cons header rest =>
    rw [hnb] at h
    simp only [] at h
    have hlabel : inputLabel inputLines = headerLabel header := by
      simp [inputLabel, headerLine, hnb]
    by_cases hlen : (split header ',').length < 3
    · rw [if_pos hlen] at h; cases h
    · rw [if_neg hlen] at h
      cases hd : decodeRows ops options (dataLines inputLines) with
      | error e => rw [hd] at h; cases h
      | panic => rw [hd] at h; cases h
      | ok rows =>
        rw [hd] at h
        simp only [aggregateRows_eq] at h
        refine ⟨rows, rfl, ?_⟩
        cases ha : applyOptionsToResults options
            (tab (firstSeen (rows.map (fun r => r.chartName)))
              (chartOf sha256Hex (headerLabel header) rows)) with
        | error e => rw [ha] at h; cases h
        | panic => rw [ha] at h; cases h
        | ok charts2 =>
          rw [ha] at h
          simp only [Result.ok.injEq] at h
          have hm : charts2 = tab (firstSeen (rows.map (fun r => r.chartName)))
              (finalChart sha256Hex (headerLabel header) options rows) := by
            rw [applyOptionsToResults_ok_eq options _ charts2 ha]
            simp [tab, finalChart, Function.comp_def]
          rw [← h, hm, hlabel, map_mapGet_tab]

theorem mem_map_some {α β : Type} (l : List α) (g : α → β) (c : β)
    (h : some c ∈ l.map (fun n => some (g n))) : ∃ n ∈ l, c = g n := by
  obtain ⟨n, hn, hc⟩ := List.mem_map.mp h
  exact ⟨n, hn, (Option.some.inj hc).symm⟩

theorem mem_rows_of_mem_firstSeen (rows : List Row) (n : Str) :
    n ∈ firstSeen (rows.map (fun r => r.chartName)) ↔ ∃ r ∈ rows, r.chartName = n := by
  rw [mem_firstSeen, List.mem_map]

/-! ## The header cell of the untrimmed line -/

theorem split_tail_append_left (a b : Str) (sep : Char) (h : sep ∉ a) :
    (split (a ++ b) sep).tail = (split b sep).tail := by
  induction a with
  | nil => rfl
  | cons c cs ih =>
    have hc : c ≠ sep := fun e => h (by simp [e])
    have hcs : sep ∉ cs := fun e => h (by simp [e])
    have ih2 := ih hcs
    rw [List.cons_append, split, if_neg hc]
    cases hs : split (cs ++ b) sep with
    | nil => exact absurd hs (split_ne_nil _ _)
    | cons piece pieces =>
      rw [hs] at ih2
      exact ih2

theorem split_get?_append_right (b c : Str) (sep : Char) :
    ∀ i, i + 1 < (split b sep).length →
      (split (b ++ c) sep).get? i = (split b sep).get? i := by
  induction b with
  | nil =>
    intro i hi
    simp [split] at hi
  | cons x t ih =>
    intro i hi
    by_cases hx : x = sep
    · rw [List.cons_append, split, if_pos hx, split, if_pos hx]
      rw [split, if_pos hx] at hi
      cases i with
      | zero => rfl
      | succ j =>
        simp only [List.get?_cons_succ]
        exact ih j (by simpa using hi)
    · rw [List.cons_append, split, if_neg hx, split, if_neg hx]
      rw [split, if_neg hx] at hi
      cases hs : split t sep with
      | nil => exact absurd hs (split_ne_nil _ _)
      | cons piece pieces =>
        rw [hs] at hi ih
        cases hs2 : split (t ++ c) sep with
        | nil => exact absurd hs2 (split_ne_nil _ _)
        | cons piece2 pieces2 =>
          rw [hs2] at ih
          cases i with
          | zero =>
            have := ih 0 (by simpa using hi)
            simp only [List.get?_cons_zero, Option.some.injEq] at this
            simp [this]
          | succ j =>
            have := ih (j + 1) (by simpa using hi)
            simpa using this

theorem isSpace_comma : isSpace ',' = false := by decide

theorem trimSpace_decompose (l : Str) :
    ∃ a c, l = a ++ (trimSpace l ++ c) ∧ ',' ∉ a ∧ ',' ∉ c := by
  refine ⟨l.takeWhile isSpace, (l.dropWhile isSpace).rtakeWhile isSpace, ?_, ?_, ?_⟩
  · have h1 : (l.dropWhile isSpace).rdropWhile isSpace ++
        (l.dropWhile isSpace).rtakeWhile isSpace = l.dropWhile isSpace := by
      unfold List.rdropWhile List.rtakeWhile
      rw [← List.reverse_append, List.takeWhile_append_dropWhile, List.reverse_reverse]
    unfold trimSpace
    rw [h1, List.takeWhile_append_dropWhile]
  · intro hmem
    have := List.mem_takeWhile_imp hmem
    rw [isSpace_comma] at this
    cases this
  · intro hmem
    have := List.mem_rtakeWhile_imp hmem
    rw [isSpace_comma] at this
    cases this

/-- With at least three cells in the trimmed line, the second cell of a line
is the second cell of the trimmed line. -/
theorem headerLabel_trimSpace (l : Str) (h : 3 ≤ (split (trimSpace l) ',').length) :
    headerLabel (trimSpace l) = headerLabel l := by
  obtain ⟨a, c, hl, ha, _⟩ := trimSpace_decompose l
  have h1 : (split l ',').tail = (split (trimSpace l ++ c) ',').tail := by
    conv_lhs => rw [hl]
    exact split_tail_append_left a _ ',' ha
  have h2 := split_get?_append_right (trimSpace l) c ',' 1 (by omega)
  unfold headerLabel
  have e1 : ∀ xs : List Str, xs.getD 1 [] = (xs.tail.get? 0).getD [] := by
    intro xs
    cases xs with
    | nil => rfl
    | cons x t => cases t <;> rfl
  have e2 : ∀ xs : List Str, xs.tail.get? 0 = xs.get? 1 := by
    intro xs
    cases xs with
    | nil => rfl
    | cons x t => rfl
  rw [e1 (split l ','), h1, e2, h2, ← e2, ← e1]

theorem headerLine_eq_raw (inputLines : List Str) :
    headerLine inputLines = (rawHeaderLine inputLines).map trimSpace := by
  unfold headerLine rawHeaderLine
  induction inputLines with
  | nil => rfl
  | cons l rest ih =>
    by_cases hb : trimSpace l = []
    · rw [nonBlankLines_cons_blank l rest hb, ih]
      simp [List.find?, hb]
    · rw [nonBlankLines_cons l rest hb]
      simp [List.find?, hb]

theorem parseBenchmarkResults_header {F : Type} (ops : FloatOps F) (sha256Hex : Str → Str)
    (inputLines : List Str) (options : Options) (result : List (Option BenchmarkResults))
    (h : parseBenchmarkResultsFromInputFile ops sha256Hex inputLines options =
      Result.ok result) (header : Str) (hh : headerLine inputLines = some header) :
    3 ≤ (split header ',').length := by
  unfold parseBenchmarkResultsFromInputFile at h
  rw [scanLines_initial] at h
  unfold headerLine at hh
  cases hnb : nonBlankLines inputLines with
  | nil => rw [hnb] at hh; cases hh
  | cons h0 rest =>
    rw [hnb] at hh h
    simp only [List.head?_cons, Option.some.injEq] at hh
    subst hh
    simp only [] at h
    by_cases hlen : (split h0 ',').length < 3
    · rw [if_pos hlen] at h; cases h
    · omega

/-! ## Claims on the aggregation -/

/-- C12: on success the data lines all decode, and the identities of the
returned charts are the distinct chart identities of the decoded rows, each
exactly once (no nil entry, no repetition), in the order of the first row
that resolves to each. -/
theorem charts_in_first_seen_order {F : Type} (ops : FloatOps F) (sha256Hex : Str → Str)
    (inputLines : List Str) (options : Options) (result : List (Option BenchmarkResults))
    (h : parseBenchmarkResultsFromInputFile ops sha256Hex inputLines options =
      Result.ok result) :
    ∃ rows, decodeRows ops options (dataLines inputLines) = Result.ok rows ∧
      result.map (fun c => c.map (fun b => b.Name)) =
        (firstSeen (rows.map (fun r => r.chartName))).map some ∧
      (firstSeen (rows.map (fun r => r.chartName))).Nodup ∧
      ∀ n, n ∈ firstSeen (rows.map (fun r => r.chartName)) ↔ ∃ r ∈ rows, r.chartName = n := by
  obtain ⟨rows, hrows, hres⟩ :=
    parseBenchmarkResults_ok ops sha256Hex inputLines options result h
  refine ⟨rows, hrows, ?_, firstSeen_nodup _, mem_rows_of_mem_firstSeen rows⟩
  rw [hres, List.map_map]
  apply List.map_congr_left
  intro n _
  rfl

/-- C15: on success every returned chart carries the same Y-axis label, the
second comma-separated cell of the first non-blank line of the input (of the
line as it is read, and equally of the trimmed line the code splits),
whatever the later lines and the options are. -/
theorem charts_share_header_label {F : Type} (ops : FloatOps F) (sha256Hex : Str → Str)
    (inputLines : List Str) (options : Options) (result : List (Option BenchmarkResults))
    (h : parseBenchmarkResultsFromInputFile ops sha256Hex inputLines options =
      Result.ok result) :
    ∀ c, some c ∈ result →
      c.YAxisLabel = inputLabel inputLines ∧
      ∃ raw, rawHeaderLine inputLines = some raw ∧ c.YAxisLabel = (split raw ',').getD 1 [] := by
  obtain ⟨rows, hrows, hres⟩ :=
    parseBenchmarkResults_ok ops sha256Hex inputLines options result h
  intro c hc
  rw [hres] at hc
  obtain ⟨n, hn, rfl⟩ := mem_map_some _ _ c hc
  refine ⟨rfl, ?_⟩
  have hlabel : (finalChart sha256Hex (inputLabel inputLines) options rows n).YAxisLabel =
      inputLabel inputLines := rfl
  rw [hlabel]
  cases hraw : rawHeaderLine inputLines with
  | none =>
    have hhead : headerLine inputLines = none := by
      rw [headerLine_eq_raw, hraw]; rfl
    have hnb : nonBlankLines inputLines = [] := by
      unfold headerLine at hhead
      exact List.head?_eq_none_iff.mp hhead
    have hdata : dataLines inputLines = [] := by
      simp [dataLines, hnb]
    rw [hdata] at hrows
    simp only [decodeRows, Result.ok.injEq] at hrows
    rw [← hrows] at hn
    simp [firstSeen] at hn
  | some raw =>
    have hhead : headerLine inputLines = some (trimSpace raw) := by
      rw [headerLine_eq_raw, hraw]; rfl
    have hlen := parseBenchmarkResults_header ops sha256Hex inputLines options result h _ hhead
    refine ⟨raw, rfl, ?_⟩
    have := headerLabel_trimSpace raw hlen
    unfold headerLabel at this
    simp only [inputLabel, hhead, headerLabel]
    exact this

/-- C16 as stated fails: on the header `name,,±` followed by the data row
`Hash/type:crc32;bytes:4-8,10.0,5%` aggregation succeeds and the chart
`Hash` has the empty Y-axis label. -/
theorem empty_label_accepted :
    ¬ (∀ (inputLines : List Str) (options : Options)
        (result : List (Option BenchmarkResults)),
        parseBenchmarkResultsFromInputFile decimalOps (fun _ => []) inputLines options =
          Result.ok result →
        ∀ c, some c ∈ result → c.YAxisLabel ≠ []) := by
  intro hall
  have h := hall ["name,,±".toList, "Hash/type:crc32;bytes:4-8,10.0,5%".toList] []
    [some
      { ID := [], Name := "Hash".toList, YAxisLabel := [],
        Cases := [("crc32".toList, [⟨"4".toList, "10.0".toList, "0.5".toList⟩])],
        Options := [(xAxisNameKey, "bytes".toList)] }]
    (by decide) _ (List.mem_singleton.mpr rfl)
  exact h rfl

/-- C16, amended: on success, when the second cell of the header line is not
empty, every returned chart has a non-empty Y-axis label. -/
theorem charts_label_nonempty {F : Type} (ops : FloatOps F) (sha256Hex : Str → Str)
    (inputLines : List Str) (options : Options) (result : List (Option BenchmarkResults))
    (h : parseBenchmarkResultsFromInputFile ops sha256Hex inputLines options =
      Result.ok result)
    (hlabel : inputLabel inputLines ≠ []) :
    ∀ c, some c ∈ result → c.YAxisLabel ≠ [] := by
  obtain ⟨rows, _, hres⟩ :=
    parseBenchmarkResults_ok ops sha256Hex inputLines options result h
  intro c hc
  rw [hres] at hc
  obtain ⟨n, _, rfl⟩ := mem_map_some _ _ c hc
  exact hlabel

theorem sampleInput_result :
    parseBenchmarkResultsFromInputFile decimalOps (fun _ => []) sampleInput [] =
      Result.ok sampleResult := by
  decide

theorem sampleInput_rows :
    decodeRows decimalOps [] (dataLines sampleInput) = Result.ok sampleRows := by
  decide

/-- Witness of C12: on the sample input the returned charts are `Hash` and
`Sum`, in this order. -/
theorem charts_in_first_seen_order_witness :
    sampleResult.map (fun c => c.map (fun b => b.Name)) =
        [some "Hash".toList, some "Sum".toList] ∧
      ∃ rows, decodeRows decimalOps [] (dataLines sampleInput) = Result.ok rows ∧
        sampleResult.map (fun c => c.map (fun b => b.Name)) =
          (firstSeen (rows.map (fun r => r.chartName))).map some ∧
        (firstSeen (rows.map (fun r => r.chartName))).Nodup ∧
        ∀ n, n ∈ firstSeen (rows.map (fun r => r.chartName)) ↔
          ∃ r ∈ rows, r.chartName = n :=
  ⟨by decide,
    charts_in_first_seen_order decimalOps (fun _ => []) sampleInput [] sampleResult
      sampleInput_result⟩

/-- Witness of C15: on the sample input both charts carry the label
`time/op (ns/op)`. -/
theorem charts_share_header_label_witness :
    inputLabel sampleInput = "time/op (ns/op)".toList ∧
      ∀ c, some c ∈ sampleResult →
        c.YAxisLabel = inputLabel sampleInput ∧
        ∃ raw, rawHeaderLine sampleInput = some raw ∧
          c.YAxisLabel = (split raw ',').getD 1 [] :=
  ⟨by decide,
    charts_share_header_label decimalOps (fun _ => []) sampleInput [] sampleResult
      sampleInput_result⟩

/-- Witness of C16, amended: on the sample input the header's second cell is
not empty and no chart has an empty Y-axis label. -/
theorem charts_label_nonempty_witness :
    inputLabel sampleInput ≠ [] ∧ sampleHash.YAxisLabel ≠ [] ∧ sampleSum.YAxisLabel ≠ [] :=
  ⟨by decide,
    charts_label_nonempty decimalOps (fun _ => []) sampleInput [] sampleResult
      sampleInput_result (by decide) sampleHash (by decide),
    charts_label_nonempty decimalOps (fun _ => []) sampleInput [] sampleResult
      sampleInput_result (by decide) sampleSum (by decide)⟩

theorem takeWhile_append_cons_of_neg {α : Type} (p : α → Bool) (a b : List α) (x : α)
    (hx : p x = false) : (a ++ x :: b).takeWhile p = a.takeWhile p := by
  induction a with
  | nil => simp [List.takeWhile, hx]
  | cons y t ih =>
    by_cases hy : p y = true
    · simp [List.takeWhile, hy, ih]
    · have hy2 : p y = false := by simpa using hy
      simp [List.takeWhile, hy2]

theorem trimSpace_ne_nil_of_name (l : Str) (h : hasPrefix (trimSpace l) nameToken = true) :
    trimSpace l ≠ [] := by
  intro e
  rw [e] at h
  revert h
  decide

theorem scanLines_truncate {F : Type} (ops : FloatOps F) (sha256Hex : Str → Str)
    (options : Options) (pre post : List Str) (l : Str) (hheader : nonBlankLines pre ≠ [])
    (hname : hasPrefix (trimSpace l) nameToken = true) :
    scanLines ops sha256Hex options (pre ++ l :: post) initialScanState =
      scanLines ops sha256Hex options pre initialScanState := by
  obtain ⟨header, body, hb⟩ := List.exists_cons_of_ne_nil hheader
  have hl := trimSpace_ne_nil_of_name l hname
  have hnb : nonBlankLines (pre ++ l :: post) =
      header :: (body ++ trimSpace l :: nonBlankLines post) := by
    rw [nonBlankLines_append, nonBlankLines_cons l post hl, hb]
    rfl
  have hdata : dataLines (pre ++ l :: post) = dataLines pre := by
    unfold dataLines
    rw [hnb, hb, List.tail_cons, List.tail_cons]
    exact takeWhile_append_cons_of_neg _ body _ (trimSpace l) (by simp [hname])
  rw [scanLines_initial, scanLines_initial, hdata, hnb, hb]

/-- C17: when an input has a non-blank line (the header) and, after it, a
line that begins with `name` once trimmed, aggregation gives the same result
as on the input cut just before that line: nothing from that line on is
decoded, whatever it is. -/
theorem aggregation_stops_at_name {F : Type} (ops : FloatOps F) (sha256Hex : Str → Str)
    (options : Options) (pre post : List Str) (l : Str) (hheader : nonBlankLines pre ≠ [])
    (hname : hasPrefix (trimSpace l) nameToken = true) :
    parseBenchmarkResultsFromInputFile ops sha256Hex (pre ++ l :: post) options =
      parseBenchmarkResultsFromInputFile ops sha256Hex pre options := by
  unfold parseBenchmarkResultsFromInputFile
  rw [scanLines_truncate ops sha256Hex options pre post l hheader hname]

/-- Witness of C17: the sample input gives the same result as its first six
lines; the lines `name,alloc/op,±` and `garbage` are not decoded. -/
theorem aggregation_stops_at_name_witness :
    parseBenchmarkResultsFromInputFile decimalOps (fun _ => []) sampleInput [] =
      parseBenchmarkResultsFromInputFile decimalOps (fun _ => []) (sampleInput.take 6) [] :=
  aggregation_stops_at_name decimalOps (fun _ => []) [] (sampleInput.take 6)
    ["garbage".toList] "name,alloc/op,±".toList (by decide) (by decide)

theorem decodeRow_few_cells {F : Type} (ops : FloatOps F) (options : Options) (line : Str)
    (h : (split line ',').length < 3) :
    decodeRow ops options line = Result.error ErrNotEnoughColumns := by
  unfold decodeRow
  match hs : split line ',' with
  | [] => rfl
  | [a] => rfl
  | [a, b] => rfl
  | a :: b :: c :: rest =>
    rw [hs] at h
    simp only [List.length_cons] at h
    omega

theorem decodeRows_append_error {F : Type} (ops : FloatOps F) (options : Options)
    (body : List Str) (x : Str) (rest : List Str) (e : BenchartError)
    (hbody : ∀ b ∈ body, (decodeRow ops options b).isOk = true)
    (hx : decodeRow ops options x = Result.error e) :
    decodeRows ops options (body ++ x :: rest) = Result.error e := by
  induction body with
  | nil => simp [decodeRows, hx]
  | cons b t ih =>
    have hb := hbody b (by simp)
    have ht := ih (fun c hc => hbody c (List.mem_cons_of_mem _ hc))
    rw [List.cons_append, decodeRows, ht]
    cases hd : decodeRow ops options b with
    | ok row => rfl
    | error e2 => rw [hd] at hb; simp [Result.isOk] at hb
    | panic => rw [hd] at hb; simp [Result.isOk] at hb

/-- C18: aggregation fails with `ErrNotEnoughColumns` when the first
non-blank line has fewer than 3 comma-separated cells, and when, after a
header with at least 3 cells and data lines that all decode and do not begin
with `name`, a non-blank line that does not begin with `name` has fewer than
3 comma-separated cells. -/
theorem aggregation_not_enough_columns {F : Type} (ops : FloatOps F)
    (sha256Hex : Str → Str) (options : Options) (pre post : List Str) (l : Str)
    (hl : trimSpace l ≠ []) (hcells : (split (trimSpace l) ',').length < 3) :
    (nonBlankLines pre = [] →
        parseBenchmarkResultsFromInputFile ops sha256Hex (pre ++ l :: post) options =
          Result.error ErrNotEnoughColumns) ∧
      (∀ header body, nonBlankLines pre = header :: body →
        3 ≤ (split header ',').length →
        (∀ b ∈ body, hasPrefix b nameToken = false ∧ (decodeRow ops options b).isOk = true) →
        hasPrefix (trimSpace l) nameToken = false →
        parseBenchmarkResultsFromInputFile ops sha256Hex (pre ++ l :: post) options =
          Result.error ErrNotEnoughColumns) := by
  constructor
  · intro hpre
    have hnb : nonBlankLines (pre ++ l :: post) = trimSpace l :: nonBlankLines post := by
      rw [nonBlankLines_append, nonBlankLines_cons l post hl, hpre]
      rfl
    unfold parseBenchmarkResultsFromInputFile
    rw [scanLines_initial, hnb]
    simp [hcells]
  · intro header body hpre hheader hbody hname
    have hnb : nonBlankLines (pre ++ l :: post) =
        header :: (body ++ trimSpace l :: nonBlankLines post) := by
      rw [nonBlankLines_append, nonBlankLines_cons l post hl, hpre]
      rfl
    have hdata : dataLines (pre ++ l :: post) =
        body ++ trimSpace l ::
          (nonBlankLines post).takeWhile (fun l => !hasPrefix l nameToken) := by
      unfold dataLines
      rw [hnb, List.tail_cons, List.takeWhile_append_of_pos
        (fun b hb => by simp [(hbody b hb).1])]
      simp [List.takeWhile, hname]
    have herr := decodeRows_append_error ops options body (trimSpace l)
      ((nonBlankLines post).takeWhile (fun l => !hasPrefix l nameToken))
      ErrNotEnoughColumns (fun b hb => (hbody b hb).2)
      (decodeRow_few_cells ops options _ hcells)
    unfold parseBenchmarkResultsFromInputFile
    rw [scanLines_initial, hnb]
    have hlen : ¬ (split header ',').length < 3 := by omega
    simp only [hlen, if_false, hdata, herr]

/-- Witness of C18: the header `name,time/op (ns/op)±` has two cells and the
data row `Hash/type:crc32;bytes:4-8,4.13067E+00|1%` has two cells; both
inputs fail with `ErrNotEnoughColumns`. -/
theorem aggregation_not_enough_columns_witness :
    parseBenchmarkResultsFromInputFile decimalOps (fun _ => [])
        ([] ++ "name,time/op (ns/op)±".toList ::
          ["Hash/type:crc32;bytes:4-8,4.13067E+00,1%".toList]) [] =
        Result.error ErrNotEnoughColumns ∧
      parseBenchmarkResultsFromInputFile decimalOps (fun _ => [])
        (["name,time/op (ns/op),±".toList] ++
          "Hash/type:crc32;bytes:4-8,4.13067E+00|1%".toList :: []) [] =
        Result.error ErrNotEnoughColumns :=
  ⟨(aggregation_not_enough_columns decimalOps (fun _ => []) [] []
      ["Hash/type:crc32;bytes:4-8,4.13067E+00,1%".toList]
      "name,time/op (ns/op)±".toList (by decide) (by decide)).1 (by decide),
    (aggregation_not_enough_columns decimalOps (fun _ => []) []
      ["name,time/op (ns/op),±".toList] []
      "Hash/type:crc32;bytes:4-8,4.13067E+00|1%".toList (by decide) (by decide)).2
      "name,time/op (ns/op),±".toList [] (by decide) (by decide) (by decide) (by decide)⟩

/-! ## Counting points -/

theorem sum_map_filter_ne (F : List Str) (g : Str → Nat) (x0 : Str) (hnd : F.Nodup)
    (h0 : x0 ∉ F → g x0 = 0) :
    (F.map g).sum = g x0 + ((F.filter (fun y => decide (y ≠ x0))).map g).sum := by
  induction F with
  | nil => simp [h0 (by simp)]
  | cons a t ih =>
    have hat : a ∉ t := (List.nodup_cons.mp hnd).1
    have hnt : t.Nodup := (List.nodup_cons.mp hnd).2
    by_cases ha : a = x0
    · subst ha
      have hfilter : t.filter (fun y => !decide (y = a)) = t := by
        rw [List.filter_eq_self]
        intro y hy
        have : y ≠ a := fun e => hat (e ▸ hy)
        simp [this]
      simp [List.filter_cons, hfilter]
    · have ih2 := ih hnt (fun hx => h0 (by
        intro hmem
        rcases List.mem_cons.mp hmem with e | e
        · exact ha e.symm
        · exact hx e))
      simp only [List.map_cons, List.sum_cons, List.filter_cons, ha, ne_eq, not_false_eq_true,
        decide_True, if_true, ih2]
      omega

theorem sum_filter_firstSeen {α : Type} (l : List α) (key : α → Str) :
    ((firstSeen (l.map key)).map
      (fun x => (l.filter (fun a => decide (key a = x))).length)).sum = l.length := by
  induction l with
  | nil => simp [firstSeen]
  | cons a t ih =>
    rw [List.map_cons, firstSeen, List.map_cons, List.sum_cons]
    have hhead : ((a :: t).filter (fun b => decide (key b = key a))).length =
        (t.filter (fun b => decide (key b = key a))).length + 1 := by
      simp [List.filter_cons]
    have htail : ((firstSeen (t.map key)).filter (fun y => decide (y ≠ key a))).map
          (fun x => ((a :: t).filter (fun b => decide (key b = x))).length) =
        ((firstSeen (t.map key)).filter (fun y => decide (y ≠ key a))).map
          (fun x => (t.filter (fun b => decide (key b = x))).length) := by
      apply List.map_congr_left
      intro x hx
      have hxa : x ≠ key a := by
        have := (List.mem_filter.mp hx).2
        simpa using this
      have : ¬ key a = x := fun e => hxa e.symm
      simp [List.filter_cons, this]
    rw [hhead, htail]
    have hsplit := sum_map_filter_ne (firstSeen (t.map key))
      (fun x => (t.filter (fun b => decide (key b = x))).length) (key a)
      (firstSeen_nodup _) (by
        intro hx
        have hx2 : key a ∉ t.map key := fun e => hx ((mem_firstSeen _ _).mpr e)
        simp only [List.length_eq_zero, List.filter_eq_nil_iff, decide_eq_true_eq]
        intro b hb hkb
        exact hx2 (List.mem_map.mpr ⟨b, hb, hkb⟩))
    rw [ih] at hsplit
    beta_reduce at hsplit
    simp only [List.length_cons]
    omega

theorem length_pointsOf (rows : List Row) (n k : Str) :
    (pointsOf rows n k).length =
      ((rows.filter (fun r => decide (r.chartName = n))).filter
        (fun r => decide (r.caseName = k))).length := by
  unfold pointsOf
  rw [List.length_map, List.filter_filter]
  congr 1
  apply List.filter_congr
  intro r _
  by_cases h1 : r.chartName = n <;> by_cases h2 : r.caseName = k <;> simp [h1, h2]

theorem pointCount_eq (sha256Hex : Str → Str) (y : Str) (options : Options)
    (rows : List Row) :
    pointCount ((firstSeen (rows.map (fun r => r.chartName))).map (fun n =>
      some (finalChart sha256Hex y options rows n))) = rows.length := by
  unfold pointCount
  rw [List.map_map]
  have hinner : ∀ n, ((fun c : Option BenchmarkResults =>
        match c with
        | some b => (b.Cases.map (fun e => e.2.length)).sum
        | none => 0) ∘ (fun n => some (finalChart sha256Hex y options rows n))) n =
      (rows.filter (fun r => decide (r.chartName = n))).length := by
    intro n
    simp only [Function.comp, finalChart, chartOf, tab, List.map_map]
    have := sum_filter_firstSeen (rows.filter (fun r => decide (r.chartName = n)))
      (fun r => r.caseName)
    rw [← this]
    congr 1
    apply List.map_congr_left
    intro k _
    exact length_pointsOf rows n k
  rw [List.map_congr_left (fun n _ => hinner n)]
  exact sum_filter_firstSeen rows (fun r => r.chartName)

/-! ## Claims on points and cases -/

/-- C13: on success, every case of every returned chart holds exactly the
points of the decoded rows that resolve to that chart and that case, in row
order; every decoded row finds its chart and its case there; and the result
holds as many points as there are decoded rows, one per row. -/
theorem points_in_row_order {F : Type} (ops : FloatOps F) (sha256Hex : Str → Str)
    (inputLines : List Str) (options : Options) (result : List (Option BenchmarkResults))
    (h : parseBenchmarkResultsFromInputFile ops sha256Hex inputLines options =
      Result.ok result) :
    ∃ rows, decodeRows ops options (dataLines inputLines) = Result.ok rows ∧
      (∀ c, some c ∈ result → ∀ k pts, mapGet c.Cases k = some pts →
        pts = pointsOf rows c.Name k ∧ ∃ r ∈ rows, r.chartName = c.Name ∧ r.caseName = k) ∧
      (∀ r ∈ rows, ∃ c, some c ∈ result ∧ c.Name = r.chartName ∧
        mapGet c.Cases r.caseName = some (pointsOf rows r.chartName r.caseName)) ∧
      pointCount result = rows.length := by
  obtain ⟨rows, hrows, hres⟩ :=
    parseBenchmarkResults_ok ops sha256Hex inputLines options result h
  refine ⟨rows, hrows, ?_, ?_, ?_⟩
  · intro c hc k pts hk
    rw [hres] at hc
    obtain ⟨n, _, rfl⟩ := mem_map_some _ _ c hc
    have hcases : (finalChart sha256Hex (inputLabel inputLines) options rows n).Cases =
        tab (firstSeen (caseNamesOf rows n)) (pointsOf rows n) := rfl
    have hname : (finalChart sha256Hex (inputLabel inputLines) options rows n).Name = n := rfl
    rw [hcases, mapGet_tab] at hk
    rw [hname]
    by_cases hmem : k ∈ firstSeen (caseNamesOf rows n)
    · rw [if_pos hmem] at hk
      refine ⟨(Option.some.inj hk).symm, ?_⟩
      have hk2 := (mem_firstSeen _ _).mp hmem
      unfold caseNamesOf at hk2
      obtain ⟨r, hr, hrk⟩ := List.mem_map.mp hk2
      have hr2 := List.mem_filter.mp hr
      exact ⟨r, hr2.1, by simpa using hr2.2, hrk⟩
    · rw [if_neg hmem] at hk
      cases hk
  · intro r hr
    refine ⟨finalChart sha256Hex (inputLabel inputLines) options rows r.chartName, ?_, rfl, ?_⟩
    · rw [hres]
      apply List.mem_map.mpr
      exact ⟨r.chartName, (mem_rows_of_mem_firstSeen rows _).mpr ⟨r, hr, rfl⟩, rfl⟩
    · have hcases : (finalChart sha256Hex (inputLabel inputLines) options rows
          r.chartName).Cases =
          tab (firstSeen (caseNamesOf rows r.chartName)) (pointsOf rows r.chartName) := rfl
      rw [hcases, mapGet_tab, if_pos]
      apply (mem_firstSeen _ _).mpr
      unfold caseNamesOf
      exact List.mem_map.mpr ⟨r, List.mem_filter.mpr ⟨hr, by simp⟩, rfl⟩
  · rw [hres]
    exact pointCount_eq sha256Hex (inputLabel inputLines) options rows

/-- Witness of C13: on the sample input the case `sha` of the chart `Hash`
holds the points of the first and the fourth data row, in this order, and
the result holds four points for four rows. -/
theorem points_in_row_order_witness :
    mapGet sampleHash.Cases "sha".toList = some (pointsOf sampleRows "Hash".toList "sha".toList) ∧
      pointCount sampleResult = 4 ∧
      ∃ rows, decodeRows decimalOps [] (dataLines sampleInput) = Result.ok rows ∧
        (∀ c, some c ∈ sampleResult → ∀ k pts, mapGet c.Cases k = some pts →
          pts = pointsOf rows c.Name k ∧
            ∃ r ∈ rows, r.chartName = c.Name ∧ r.caseName = k) ∧
        (∀ r ∈ rows, ∃ c, some c ∈ sampleResult ∧ c.Name = r.chartName ∧
          mapGet c.Cases r.caseName = some (pointsOf rows r.chartName r.caseName)) ∧
        pointCount sampleResult = rows.length :=
  ⟨by decide, by decide,
    points_in_row_order decimalOps (fun _ => []) sampleInput [] sampleResult
      sampleInput_result⟩

theorem strLe_cons_iff (a b : Char) (s t : Str) :
    strLe (a :: s) (b :: t) = true ↔ a < b ∨ (a = b ∧ strLe s t = true) := by
  show (if a < b then true else if a = b then strLe s t else false) = true ↔ _
  by_cases h1 : a < b
  · simp [h1]
  · by_cases h2 : a = b
    · subst h2
      simp
    · simp [h1, h2]

theorem strLe_total (x : Str) : ∀ y : Str, strLe x y = true ∨ strLe y x = true := by
  induction x with
  | nil => intro y; left; cases y <;> rfl
  | cons a s ih =>
    intro y
    cases y with
    | nil => right; rfl
    | cons b t =>
      rw [strLe_cons_iff, strLe_cons_iff]
      rcases lt_trichotomy a b with h | h | h
      · exact Or.inl (Or.inl h)
      · subst h
        rcases ih t with h2 | h2
        · exact Or.inl (Or.inr ⟨rfl, h2⟩)
        · exact Or.inr (Or.inr ⟨rfl, h2⟩)
      · exact Or.inr (Or.inl h)

theorem strLe_trans (x : Str) :
    ∀ y z : Str, strLe x y = true → strLe y z = true → strLe x z = true := by
  induction x with
  | nil => intro y z _ _; cases z <;> rfl
  | cons a s ih =>
    intro y z hxy hyz
    cases y with
    | nil => simp [strLe] at hxy
    | cons b t =>
      cases z with
      | nil => simp [strLe] at hyz
      | cons c u =>
        rw [strLe_cons_iff] at hxy hyz ⊢
        rcases hxy with h1 | ⟨h1, h1s⟩
        · rcases hyz with h2 | ⟨h2, _⟩
          · exact Or.inl (lt_trans h1 h2)
          · exact Or.inl (h2 ▸ h1)
        · rcases hyz with h2 | ⟨h2, h2s⟩
          · exact Or.inl (h1 ▸ h2)
          · exact Or.inr ⟨h1.trans h2, ih t u h1s h2s⟩

theorem jsonKeys_tab {ν : Type} (names : List Str) (f : Str → ν) :
    jsonKeys (tab names f) = names.insertionSort (fun a b => strLe a b = true) := by
  unfold jsonKeys
  rw [tab_map_fst]

/-- C14 as stated fails: in the chart `Hash` of the sample input the case
`sha` appears first and `crc32` second, and the output exposes the case
names as `crc32`, `sha`. -/
theorem cases_not_in_first_seen_order :
    ¬ (∀ (inputLines : List Str) (options : Options)
        (result : List (Option BenchmarkResults)) (rows : List Row),
        parseBenchmarkResultsFromInputFile decimalOps (fun _ => []) inputLines options =
          Result.ok result →
        decodeRows decimalOps options (dataLines inputLines) = Result.ok rows →
        ∀ c, some c ∈ result → jsonKeys c.Cases = firstSeen (caseNamesOf rows c.Name)) := by
  intro hall
  have h := hall sampleInput [] sampleResult sampleRows sampleInput_result sampleInput_rows
    sampleHash (by decide)
  revert h
  decide

/-- C14, amended: on success, the case-to-points mapping of every returned
chart holds exactly the case names of the decoded rows that resolve to that
chart, and the output exposes them each once, in sorted order. -/
theorem cases_exposed_sorted {F : Type} (ops : FloatOps F) (sha256Hex : Str → Str)
    (inputLines : List Str) (options : Options) (result : List (Option BenchmarkResults))
    (h : parseBenchmarkResultsFromInputFile ops sha256Hex inputLines options =
      Result.ok result) :
    ∃ rows, decodeRows ops options (dataLines inputLines) = Result.ok rows ∧
      ∀ c, some c ∈ result →
        (∀ k, (mapGet c.Cases k).isSome = true ↔ k ∈ caseNamesOf rows c.Name) ∧
        (jsonKeys c.Cases).Perm (firstSeen (caseNamesOf rows c.Name)) ∧
        (jsonKeys c.Cases).Sorted (fun a b => strLe a b = true) := by
  obtain ⟨rows, hrows, hres⟩ :=
    parseBenchmarkResults_ok ops sha256Hex inputLines options result h
  refine ⟨rows, hrows, ?_⟩
  intro c hc
  rw [hres] at hc
  obtain ⟨n, _, rfl⟩ := mem_map_some _ _ c hc
  have hcases : (finalChart sha256Hex (inputLabel inputLines) options rows n).Cases =
      tab (firstSeen (caseNamesOf rows n)) (pointsOf rows n) := rfl
  have hname : (finalChart sha256Hex (inputLabel inputLines) options rows n).Name = n := rfl
  rw [hcases, hname, jsonKeys_tab]
  haveI : IsTotal Str (fun a b => strLe a b = true) := ⟨strLe_total⟩
  haveI : IsTrans Str (fun a b => strLe a b = true) := ⟨strLe_trans⟩
  refine ⟨?_, List.perm_insertionSort _ _, List.sorted_insertionSort _ _⟩
  intro k
  rw [mapGet_tab]
  by_cases hk : k ∈ firstSeen (caseNamesOf rows n)
  · simp [hk, (mem_firstSeen _ _).mp hk]
  · have hk2 : k ∉ caseNamesOf rows n := fun e => hk ((mem_firstSeen _ _).mpr e)
    simp [hk, hk2]

/-- Witness of C14, amended: the chart `Hash` of the sample input exposes
its case names as `crc32`, `sha`. -/
theorem cases_exposed_sorted_witness :
    jsonKeys sampleHash.Cases = ["crc32".toList, "sha".toList] ∧
      ∃ rows, decodeRows decimalOps [] (dataLines sampleInput) = Result.ok rows ∧
        ∀ c, some c ∈ sampleResult →
          (∀ k, (mapGet c.Cases k).isSome = true ↔ k ∈ caseNamesOf rows c.Name) ∧
          (jsonKeys c.Cases).Perm (firstSeen (caseNamesOf rows c.Name)) ∧
          (jsonKeys c.Cases).Sorted (fun a b => strLe a b = true) :=
  ⟨by decide,
    cases_exposed_sorted decimalOps (fun _ => []) sampleInput [] sampleResult
      sampleInput_result⟩

/-! ## Claims on `parseOptions` -/

theorem optionStep_of_split (chartOptions : OptionMap) (optionString key value : Str)
    (hs : split optionString '=' = [key, value]) :
    optionStep chartOptions optionString =
      (if inVocabulary key value then Result.ok (mapSet chartOptions key value)
       else if key = xAxisTypeKey ∨ key = yAxisTypeKey then Result.error ErrOptionTypeIsWrong
       else Result.error ErrOptionIsNotSupported) := by
  unfold optionStep
  simp only [hs, List.length_cons, List.length_nil, ne_eq, not_true_eq_false, if_false,
    index, List.get?, bind, Result.bind, pure, Nat.reduceAdd]
  by_cases h1 : key = titleKey
  · subst h1
    simp [supportedChartOptions, mapGet, inVocabulary]
  · by_cases h2 : key = xAxisNameKey
    · subst h2
      have : ¬ titleKey = xAxisNameKey := by decide
      simp [supportedChartOptions, mapGet, inVocabulary, this]
    · by_cases h3 : key = xAxisTypeKey
      · subst h3
        have e1 : ¬ titleKey = xAxisTypeKey := by decide
        have e2 : ¬ xAxisNameKey = xAxisTypeKey := by decide
        have e3 : ¬ xAxisTypeKey = titleKey := by decide
        have e4 : ¬ xAxisTypeKey = xAxisNameKey := by decide
        have e5 : ¬ logType = stringType := by decide
        by_cases hv : value = logType
        · subst hv
          simp [supportedChartOptions, mapGet, inVocabulary, e1, e2, e3, e4, e5]
        · have hv2 : ¬ logType = value := fun e => hv e.symm
          simp [supportedChartOptions, mapGet, inVocabulary, e1, e2, e3, e4, e5, hv, hv2]
      · by_cases h4 : key = yAxisTypeKey
        · subst h4
          have e1 : ¬ titleKey = yAxisTypeKey := by decide
          have e2 : ¬ xAxisNameKey = yAxisTypeKey := by decide
          have e3 : ¬ yAxisTypeKey = titleKey := by decide
          have e4 : ¬ yAxisTypeKey = xAxisNameKey := by decide
          have e5 : ¬ logType = stringType := by decide
          have e6 : ¬ xAxisTypeKey = yAxisTypeKey := by decide
          have e7 : ¬ yAxisTypeKey = xAxisTypeKey := by decide
          by_cases hv : value = logType
          · subst hv
            simp [supportedChartOptions, mapGet, inVocabulary, e1, e2, e3, e4, e5, e6, e7]
          · have hv2 : ¬ logType = value := fun e => hv e.symm
            simp [supportedChartOptions, mapGet, inVocabulary, e1, e2, e3, e4, e5, e6, e7,
              hv, hv2]
        · have g1 : ¬ titleKey = key := fun e => h1 e.symm
          have g2 : ¬ xAxisNameKey = key := fun e => h2 e.symm
          have g3 : ¬ xAxisTypeKey = key := fun e => h3 e.symm
          have g4 : ¬ yAxisTypeKey = key := fun e => h4 e.symm
          simp [supportedChartOptions, mapGet, inVocabulary, h1, h2, h3, h4, g1, g2, g3, g4]

theorem optionStep_ok (chartOptions chartOptions1 : OptionMap) (optionString : Str)
    (h : optionStep chartOptions optionString = Result.ok chartOptions1) :
    ∃ key value, inVocabulary key value ∧ chartOptions1 = mapSet chartOptions key value := by
  match hs : split optionString '=' with
  | [] => simp [optionStep, hs] at h
  | [a] => simp [optionStep, hs] at h
  | [key, value] =>
    rw [optionStep_of_split chartOptions optionString key value hs] at h
    by_cases hv : inVocabulary key value
    · rw [if_pos hv] at h
      exact ⟨key, value, hv, (Result.ok.inj h).symm⟩
    · rw [if_neg hv] at h
      split at h <;> cases h
  | a :: b :: c :: rest => simp [optionStep, hs] at h

theorem mem_mapSet {ν : Type} (m : List (Str × ν)) (k : Str) (v : ν) (e : Str × ν)
    (h : e ∈ mapSet m k v) : e ∈ m ∨ e = (k, v) := by
  induction m with
  | nil => right; simpa [mapSet] using h
  | cons x rest ih =>
    obtain ⟨k1, v1⟩ := x
    by_cases hk : k1 = k
    · subst hk
      simp only [mapSet, if_true, List.mem_cons] at h
      rcases h with h | h
      · exact Or.inr h
      · exact Or.inl (List.mem_cons_of_mem _ h)
    · simp only [mapSet, hk, if_false, List.mem_cons] at h
      rcases h with h | h
      · exact Or.inl (by simp [h])
      · rcases ih h with h2 | h2
        · exact Or.inl (List.mem_cons_of_mem _ h2)
        · exact Or.inr h2

theorem mem_of_mapGet {ν : Type} (m : List (Str × ν)) (k : Str) (v : ν)
    (h : mapGet m k = some v) : (k, v) ∈ m := by
  induction m with
  | nil => simp [mapGet] at h
  | cons x rest ih =>
    obtain ⟨k1, v1⟩ := x
    by_cases hk : k1 = k
    · subst hk
      simp only [mapGet, if_true, Option.some.injEq] at h
      simp [h]
    · simp only [mapGet, hk, if_false] at h
      exact List.mem_cons_of_mem _ (ih h)

theorem optionsLoop_ok (optionStrings : List Str) :
    ∀ chartOptions chartOptions1 : OptionMap,
      optionsLoop optionStrings chartOptions = Result.ok chartOptions1 →
      (∀ kv ∈ chartOptions, inVocabulary kv.1 kv.2) →
      ∀ kv ∈ chartOptions1, inVocabulary kv.1 kv.2 := by
  induction optionStrings with
  | nil =>
    intro co co1 h hall
    simp only [optionsLoop, Result.ok.injEq] at h
    rw [← h]; exact hall
  | cons x rest ih =>
    intro co co1 h hall
    simp only [optionsLoop] at h
    cases hstep : optionStep co x with
    | error e => rw [hstep] at h; cases h
    | panic => rw [hstep] at h; cases h
    | ok co2 =>
      rw [hstep] at h
      obtain ⟨key, value, hv, rfl⟩ := optionStep_ok co co2 x hstep
      apply ih _ _ h
      intro kv hkv
      rcases mem_mapSet co key value kv hkv with h1 | h1
      · exact hall kv h1
      · rw [h1]; exact hv

theorem argumentStep_ok (options options1 : Options) (optionsString : Str)
    (h : argumentStep options optionsString = Result.ok options1)
    (hall : ∀ p ∈ options, ∀ kv ∈ p.2, inVocabulary kv.1 kv.2) :
    ∀ p ∈ options1, ∀ kv ∈ p.2, inVocabulary kv.1 kv.2 := by
  unfold argumentStep at h
  by_cases hc : ';' ∈ optionsString
  · rw [cut_of_mem optionsString ';' hc] at h
    simp only [] at h
    cases hl : optionsLoop (split (cut optionsString ';').2.1 ';')
        (match mapGet options (cut optionsString ';').1 with
          | some chartOptions => chartOptions
          | none => []) with
    | error e => rw [hl] at h; cases h
    | panic => rw [hl] at h; cases h
    | ok co1 =>
      rw [hl] at h
      simp only [Result.ok.injEq] at h
      have hstart : ∀ kv ∈ (match mapGet options (cut optionsString ';').1 with
          | some chartOptions => chartOptions
          | none => []), inVocabulary kv.1 kv.2 := by
        cases hm : mapGet options (cut optionsString ';').1 with
        | none => intro kv hkv; cases hkv
        | some co => exact hall _ (mem_of_mapGet options _ co hm)
      have hco1 := optionsLoop_ok _ _ co1 hl hstart
      intro p hp
      rw [← h] at hp
      rcases mem_mapSet options _ co1 p hp with h1 | h1
      · exact hall p h1
      · rw [h1]; exact hco1
  · rw [cut_of_not_mem optionsString ';' hc] at h
    cases h

theorem argumentsLoop_ok (optionArguments : List Str) :
    ∀ options options1 : Options,
      argumentsLoop optionArguments options = Result.ok options1 →
      (∀ p ∈ options, ∀ kv ∈ p.2, inVocabulary kv.1 kv.2) →
      ∀ p ∈ options1, ∀ kv ∈ p.2, inVocabulary kv.1 kv.2 := by
  induction optionArguments with
  | nil =>
    intro o o1 h hall
    simp only [argumentsLoop, Result.ok.injEq] at h
    rw [← h]; exact hall
  | cons x rest ih =>
    intro o o1 h hall
    simp only [argumentsLoop] at h
    cases hstep : argumentStep o x with
    | error e => rw [hstep] at h; cases h
    | panic => rw [hstep] at h; cases h
    | ok o2 =>
      rw [hstep] at h
      exact ih _ _ h (argumentStep_ok o o2 x hstep hall)

theorem parseOptions_ok (cliArguments : List Str) (inputFilePath outputFilePath : Str)
    (options : Options)
    (h : parseOptions cliArguments = Result.ok (inputFilePath, outputFilePath, options)) :
    ∀ p ∈ options, ∀ kv ∈ p.2, inVocabulary kv.1 kv.2 := by
  unfold parseOptions at h
  by_cases hlen : cliArguments.length < 3
  · simp [hlen] at h
  · simp only [hlen, if_false, bind, Result.bind, pure] at h
    cases h1 : index cliArguments (cliArguments.length - 2) with
    | error e => simp [h1] at h
    | panic => simp [h1] at h
    | ok i =>
      cases h2 : index cliArguments (cliArguments.length - 1) with
      | error e => simp [h1, h2] at h
      | panic => simp [h1, h2] at h
      | ok o =>
        simp only [h1, h2] at h
        by_cases h3 : cliArguments.length = 3
        · simp only [h3, if_true, Result.ok.injEq, Prod.mk.injEq] at h
          intro p hp
          rw [← h.2.2] at hp
          cases hp
        · simp only [h3, if_false] at h
          try simp only [List.drop_one] at h
          cases hl : argumentsLoop (cliArguments.take (cliArguments.length - 2)).tail [] with
          | error e => simp [hl] at h
          | panic => simp [hl] at h
          | ok opts =>
            simp only [hl, Result.ok.injEq, Prod.mk.injEq] at h
            rw [← h.2.2]
            exact argumentsLoop_ok _ [] opts hl (fun p hp => by cases hp)

theorem parseOptions_single (program chart key value inputFilePath outputFilePath : Str)
    (hchart : ';' ∉ chart) (hk : ';' ∉ key ∧ '=' ∉ key) (hv : ';' ∉ value ∧ '=' ∉ value) :
    parseOptions [program, chart ++ ';' :: (key ++ '=' :: value), inputFilePath,
        outputFilePath] =
      (if inVocabulary key value then
        Result.ok (inputFilePath, outputFilePath, [(chart, [(key, value)])])
       else if key = xAxisTypeKey ∨ key = yAxisTypeKey then Result.error ErrOptionTypeIsWrong
       else Result.error ErrOptionIsNotSupported) := by
  have hsemi : ';' ∉ key ++ '=' :: value := by
    simp [hk.1, hv.1]
  have hsplit : split (key ++ '=' :: value) '=' = [key, value] := by
    rw [split_append_sep key value '=' hk.2, split_of_not_mem value '=' hv.2]
  have hstep := optionStep_of_split [] (key ++ '=' :: value) key value hsplit
  have harg : argumentStep [] (chart ++ ';' :: (key ++ '=' :: value)) =
      (if inVocabulary key value then Result.ok [(chart, [(key, value)])]
       else if key = xAxisTypeKey ∨ key = yAxisTypeKey then Result.error ErrOptionTypeIsWrong
       else Result.error ErrOptionIsNotSupported) := by
    unfold argumentStep
    rw [cut_append_sep chart _ ';' hchart]
    simp only [mapGet, split_of_not_mem _ ';' hsemi, optionsLoop, hstep]
    by_cases hvoc : inVocabulary key value
    · simp [hvoc, mapSet]
    · by_cases hax : key = xAxisTypeKey ∨ key = yAxisTypeKey
      · simp [hvoc, hax]
      · simp [hvoc, hax]
  unfold parseOptions
  simp only [List.length_cons, List.length_nil, index, List.get?, bind, Result.bind, pure]
  simp only [Nat.reduceAdd, Nat.lt_irrefl, if_false, Nat.reduceSub, List.get?,
    Nat.reduceEqDiff, List.take, List.drop, argumentsLoop, harg]
  by_cases hvoc : inVocabulary key value
  · simp [hvoc, argumentsLoop]
  · by_cases hax : key = xAxisTypeKey ∨ key = yAxisTypeKey
    · simp [hvoc, hax]
    · simp [hvoc, hax]

/-- C19: an option text `key=value` is accepted by the option loop exactly
when the pair is in the vocabulary (`title` or `xAxisName` with any value,
`xAxisType` or `yAxisType` with the value `log`); with an axis-type key and
another value it fails with `ErrOptionTypeIsWrong`, with any other key with
`ErrOptionIsNotSupported`; the same holds for `parseOptions` on one option
argument `chart;key=value`; and every pair of an options mapping that
`parseOptions` returns is in the vocabulary. -/
theorem parseOptions_vocabulary :
    (∀ (chartOptions : OptionMap) (key value : Str), '=' ∉ key → '=' ∉ value →
      optionStep chartOptions (key ++ '=' :: value) =
        (if inVocabulary key value then Result.ok (mapSet chartOptions key value)
         else if key = xAxisTypeKey ∨ key = yAxisTypeKey then
           Result.error ErrOptionTypeIsWrong
         else Result.error ErrOptionIsNotSupported)) ∧
    (∀ (program chart key value inputFilePath outputFilePath : Str),
      ';' ∉ chart → ';' ∉ key ∧ '=' ∉ key → ';' ∉ value ∧ '=' ∉ value →
      parseOptions [program, chart ++ ';' :: (key ++ '=' :: value), inputFilePath,
          outputFilePath] =
        (if inVocabulary key value then
          Result.ok (inputFilePath, outputFilePath, [(chart, [(key, value)])])
         else if key = xAxisTypeKey ∨ key = yAxisTypeKey then
           Result.error ErrOptionTypeIsWrong
         else Result.error ErrOptionIsNotSupported)) ∧
    (∀ (cliArguments : List Str) (inputFilePath outputFilePath : Str) (options : Options),
      parseOptions cliArguments = Result.ok (inputFilePath, outputFilePath, options) →
      ∀ p ∈ options, ∀ kv ∈ p.2, inVocabulary kv.1 kv.2) := by
  refine ⟨?_, parseOptions_single, parseOptions_ok⟩
  intro co key value hk hv
  apply optionStep_of_split
  rw [split_append_sep key value '=' hk, split_of_not_mem value '=' hv]

/-- Witness of C19: the arguments `;someOption=`, `;xAxisType=` and
`;xAxisType=exp` fail with `ErrOptionIsNotSupported`, `ErrOptionTypeIsWrong`
and `ErrOptionTypeIsWrong`, and `Pool;xAxisType=log` is accepted. -/
theorem parseOptions_vocabulary_witness :
    parseOptions ["benchart".toList, ";someOption=".toList, "in.csv".toList,
        "out.html".toList] = Result.error ErrOptionIsNotSupported ∧
      parseOptions ["benchart".toList, ";xAxisType=".toList, "in.csv".toList,
        "out.html".toList] = Result.error ErrOptionTypeIsWrong ∧
      parseOptions ["benchart".toList, ";xAxisType=exp".toList, "in.csv".toList,
        "out.html".toList] = Result.error ErrOptionTypeIsWrong ∧
      parseOptions ["benchart".toList, "Pool;xAxisType=log".toList, "in.csv".toList,
        "out.html".toList] =
        Result.ok ("in.csv".toList, "out.html".toList,
          [("Pool".toList, [(xAxisTypeKey, logType)])]) :=
  ⟨parseOptions_vocabulary.2.1 "benchart".toList [] "someOption".toList [] "in.csv".toList
      "out.html".toList (by decide) (by decide) (by decide),
    parseOptions_vocabulary.2.1 "benchart".toList [] "xAxisType".toList [] "in.csv".toList
      "out.html".toList (by decide) (by decide) (by decide),
    parseOptions_vocabulary.2.1 "benchart".toList [] "xAxisType".toList "exp".toList
      "in.csv".toList "out.html".toList (by decide) (by decide) (by decide),
    parseOptions_vocabulary.2.1 "benchart".toList "Pool".toList "xAxisType".toList
      "log".toList "in.csv".toList "out.html".toList (by decide) (by decide) (by decide)⟩

/-! ## The last attribute and the known label -/

theorem classify_last_mem (label : Option Str) (k : Str) :
    classify label true k ∈ [AttrClass.xKnown, AttrClass.xLast] := by
  unfold classify
  by_cases h : label = some k <;> simp [h]

theorem withClass_cons (cs : List AttrClass) (x : AttrClass × Str × Str)
    (l : List (AttrClass × Str × Str)) :
    withClass cs (x :: l) = if x.1 ∈ cs then x.2 :: withClass cs l else withClass cs l := by
  unfold withClass
  by_cases h : x.1 ∈ cs <;> simp [List.filter_cons, h]

theorem getLast?_cons_of_getLast? {α : Type} (x y : α) (l : List α)
    (h : l.getLast? = some y) : (x :: l).getLast? = some y := by
  cases l with
  | nil => simp at h
  | cons z t => rw [List.getLast?_cons_cons]; exact h

theorem withClass_x_getLast? (label : Option Str) (kvs : List (Str × Str)) (hne : kvs ≠ []) :
    (withClass [AttrClass.xKnown, AttrClass.xLast] (classifyAll label kvs)).getLast? =
      kvs.getLast? := by
  induction kvs with
  | nil => exact absurd rfl hne
  | cons kv rest ih =>
    cases rest with
    | nil =>
      have := classify_last_mem label kv.1
      simp only [classifyAll, List.isEmpty_nil, withClass_cons, this, if_true]
      simp [withClass]
    | cons kv2 rest2 =>
      have ih2 := ih (by simp)
      obtain ⟨y, hy⟩ : ∃ y, (kv2 :: rest2).getLast? = some y := by
        cases h : (kv2 :: rest2).getLast? with
        | none => simp at h
        | some y => exact ⟨y, rfl⟩
      rw [hy] at ih2
      rw [List.getLast?_cons_cons, hy, classifyAll, withClass_cons]
      split
      · exact getLast?_cons_of_getLast? _ _ _ ih2
      · exact ih2

theorem withClass_xLast (label : Option Str) (kvs : List (Str × Str)) :
    withClass [AttrClass.xLast] (classifyAll label kvs) =
      match kvs.getLast? with
      | some kv => if label = some kv.1 then [] else [kv]
      | none => [] := by
  induction kvs with
  | nil => simp [classifyAll, withClass]
  | cons kv rest ih =>
    cases rest with
    | nil =>
      simp only [classifyAll, List.isEmpty_nil, withClass_cons, List.getLast?_singleton]
      by_cases h : label = some kv.1
      · simp [classify, h, withClass]
      · simp [classify, h, withClass]
    | cons kv2 rest2 =>
      rw [List.getLast?_cons_cons, ← ih, classifyAll, withClass_cons]
      have : classify label (kv2 :: rest2).isEmpty kv.1 ∉ [AttrClass.xLast] := by
        unfold classify
        by_cases h1 : label = some kv.1
        · simp [h1]
        · by_cases h3 : kv.1 = typeKey
          · have h1b : ¬ label = some typeKey := h3 ▸ h1
            simp [h1b, h3]
          · simp [h1, h3]
      rw [if_neg this]

theorem specX_eq_last (label : Option Str) (kvs : List (Str × Str)) (kv : Str × Str)
    (h : kvs.getLast? = some kv) :
    specXAxisName label kvs = kv.1 ∧ specXValue label kvs = kv.2 := by
  have hne : kvs ≠ [] := by
    intro e; simp [e] at h
  constructor
  · unfold specXAxisName
    rw [withClass_xLast, h]
    by_cases hl : label = some kv.1
    · simp [hl]
    · simp [hl]
  · unfold specXValue
    rw [withClass_x_getLast? label kvs hne, h]

theorem withClass_known_label (cs : List AttrClass) (hcs : AttrClass.xKnown ∉ cs)
    (label : Option Str) (kvs : List (Str × Str)) :
    withClass cs (classifyAll label kvs) =
      (withClass cs (classifyAll none kvs)).filter (fun kv => decide (label ≠ some kv.1)) := by
  induction kvs with
  | nil => simp [classifyAll, withClass]
  | cons kv rest ih =>
    rw [classifyAll, classifyAll, withClass_cons, withClass_cons, ih]
    by_cases hl : label = some kv.1
    · have h1 : classify label rest.isEmpty kv.1 = AttrClass.xKnown := by
        simp [classify, hl]
      rw [h1, if_neg hcs]
      split
      · simp [List.filter_cons, hl]
      · rfl
    · have h1 : classify label rest.isEmpty kv.1 = classify none rest.isEmpty kv.1 := by
        simp [classify, hl]
      rw [h1]
      split
      · simp [List.filter_cons, hl]
      · rfl

/-- C20: when `parseAttributes` succeeds, the returned X-axis label and X
value are the key and the value of the last attribute of the cell, so they
are the same under any other options on which the cell decodes; the label
known from the options only takes the attributes that carry it as key out of
the discriminators of the chart identity and out of the `type` attributes
that give the case name. -/
theorem parseAttributes_last_attribute (cell : Str) (options : Options) (r : Attributes)
    (h : parseAttributes cell options = Result.ok r) :
    (∃ last, (cellAttributes cell).getLast? = some last ∧
      r.xAxisName = attrKey last ∧ r.xValue = attrValue last) ∧
    (∀ (options2 : Options) (r2 : Attributes),
      parseAttributes cell options2 = Result.ok r2 →
      r2.xAxisName = r.xAxisName ∧ r2.xValue = r.xValue) ∧
    r.chartName =
      join (cellBase cell ::
        ((discriminators none (cellPairs cell)).filter
          (fun kv => decide (knownLabel options (cellBase cell) ≠ some kv.1))).map
          renderDiscriminator) ' ' ∧
    (withClass [AttrClass.caseName]
        (classifyAll (knownLabel options (cellBase cell)) (cellPairs cell))).getLast? =
      ((withClass [AttrClass.caseName] (classifyAll none (cellPairs cell))).filter
        (fun kv => decide (knownLabel options (cellBase cell) ≠ some kv.1))).getLast? ∧
    (∃ kv, (withClass [AttrClass.caseName]
        (classifyAll (knownLabel options (cellBase cell)) (cellPairs cell))).getLast? =
          some kv ∧ r.caseName = kv.2) := by
  have hlast : ∀ (opts : Options) (res : Attributes),
      parseAttributes cell opts = Result.ok res →
      ∃ last, (cellAttributes cell).getLast? = some last ∧
        res.xAxisName = attrKey last ∧ res.xValue = attrValue last := by
    intro opts res hres
    obtain ⟨h1, h2, h3⟩ := parseAttributes_ok_shape cell opts res hres
    rw [parseAttributes_eq_decodeSpec cell opts h1 h2 h3] at hres
    obtain ⟨last, hl⟩ : ∃ last, (cellAttributes cell).getLast? = some last := by
      cases hc : (cellAttributes cell).getLast? with
      | none =>
        rw [List.getLast?_eq_none_iff] at hc
        exact absurd hc (split_ne_nil _ _)
      | some last => exact ⟨last, rfl⟩
    have hpairs : (cellPairs cell).getLast? = some (attrKey last, attrValue last) := by
      unfold cellPairs
      rw [List.getLast?_map, hl]
      rfl
    have hx := specX_eq_last (knownLabel opts (cellBase cell)) (cellPairs cell) _ hpairs
    unfold decodeSpec at hres
    split at hres
    · cases hres
    · cases hres
      exact ⟨last, hl, hx.1, hx.2⟩
  refine ⟨hlast options r h, ?_, ?_, ?_, ?_⟩
  · intro options2 r2 h2
    obtain ⟨last, hl, hk, hv⟩ := hlast options r h
    obtain ⟨last2, hl2, hk2, hv2⟩ := hlast options2 r2 h2
    rw [hl] at hl2
    cases hl2
    exact ⟨hk2.trans hk.symm, hv2.trans hv.symm⟩
  · rw [parseAttributes_chartName cell options r h]
    unfold cellDiscriminators discriminators
    rw [withClass_known_label [AttrClass.discriminator] (by decide)]
  · rw [withClass_known_label [AttrClass.caseName] (by decide)]
  · obtain ⟨h1, h2, h3⟩ := parseAttributes_ok_shape cell options r h
    rw [parseAttributes_eq_decodeSpec cell options h1 h2 h3] at h
    unfold decodeSpec at h
    split at h
    · cases h
    · rename_i hcase
      cases h
      unfold specCaseName at hcase ⊢
      cases hw : (withClass [AttrClass.caseName]
          (classifyAll (knownLabel options (cellBase cell)) (cellPairs cell))).getLast? with
      | none => rw [hw] at hcase; exact absurd rfl hcase
      | some kv => exact ⟨kv, rfl, rfl⟩

/-- Witness of C20: with the X-axis label of `Hash` preset to `bytes`, the
cell `Hash/type:crc32;bytes:4;mode:fast-8` yields the label `mode` and the
X value `fast` of its last attribute. -/
theorem parseAttributes_last_attribute_witness :
    ∃ last, (cellAttributes "Hash/type:crc32;bytes:4;mode:fast-8".toList).getLast? =
        some last ∧
      "mode".toList = attrKey last ∧ "fast".toList = attrValue last :=
  (parseAttributes_last_attribute "Hash/type:crc32;bytes:4;mode:fast-8".toList
    [("Hash".toList, [(xAxisNameKey, "bytes".toList)])]
    ⟨"Hash".toList, "crc32".toList, "fast".toList, "mode".toList⟩ (by decide)).1

/-! ## A `type` attribute in the last place -/

theorem withClass_caseName_nil_of_dropLast (label : Option Str) (kvs : List (Str × Str))
    (h : ∀ kv ∈ kvs.dropLast, kv.1 ≠ typeKey) :
    withClass [AttrClass.caseName] (classifyAll label kvs) = [] := by
  induction kvs with
  | nil => simp [classifyAll, withClass]
  | cons kv rest ih =>
    cases rest with
    | nil =>
      have hc : classify label true kv.1 ∉ [AttrClass.caseName] := by
        intro hmem
        have hx := classify_last_mem label kv.1
        rw [List.mem_singleton.mp hmem] at hx
        revert hx
        decide
      simp only [classifyAll, List.isEmpty_nil, withClass_cons, if_neg hc]
      simp [withClass]
    | cons kv2 rest2 =>
      have hk : kv.1 ≠ typeKey := h kv (by simp [List.dropLast])
      have hrest : ∀ x ∈ (kv2 :: rest2).dropLast, x.1 ≠ typeKey := by
        intro x hx
        apply h x
        rw [List.dropLast_cons₂]
        exact List.mem_cons_of_mem _ hx
      have hc : classify label (kv2 :: rest2).isEmpty kv.1 ∉ [AttrClass.caseName] := by
        unfold classify
        by_cases hl : label = some kv.1
        · simp [hl]
        · simp [hl, hk]
      rw [classifyAll, withClass_cons, if_neg hc]
      exact ih hrest

/-- C21: a cell with a `/`, a later `-` and a `:` in every attribute, none of
whose attributes before the last one has the key `type`, fails with
`ErrMeasurementLineHasNoTypeAttribute` whatever the options are; so does in
particular a cell whose only attribute with the key `type` is the last one,
because the last attribute gives the X axis and is never read as the case
name. -/
theorem parseAttributes_type_last (cell : Str) (options : Options)
    (h1 : '/' ∈ cell) (h2 : '-' ∈ cellRest cell) (h3 : ∀ a ∈ cellAttributes cell, ':' ∈ a)
    (h4 : ∀ a ∈ (cellAttributes cell).dropLast, attrKey a ≠ typeKey) :
    parseAttributes cell options = Result.error ErrMeasurementLineHasNoTypeAttribute := by
  rw [parseAttributes_eq_decodeSpec cell options h1 h2 h3]
  have hk : ∀ kv ∈ (cellPairs cell).dropLast, kv.1 ≠ typeKey := by
    intro kv hkv
    unfold cellPairs at hkv
    rw [← List.map_dropLast] at hkv
    obtain ⟨a, ha, rfl⟩ := List.mem_map.mp hkv
    exact h4 a ha
  simp [decodeSpec, specCaseName, withClass_caseName_nil_of_dropLast _ _ hk]

/-- Witness of C21: `Hash/bytes:4;type:crc32-8` and the single-attribute cell
`Hash/type:crc32-8` fail with `ErrMeasurementLineHasNoTypeAttribute`, without
options and with the X-axis label of `Hash` preset to `bytes`. -/
theorem parseAttributes_type_last_witness :
    parseAttributes "Hash/bytes:4;type:crc32-8".toList [] =
        Result.error ErrMeasurementLineHasNoTypeAttribute ∧
      parseAttributes "Hash/type:crc32-8".toList [] =
        Result.error ErrMeasurementLineHasNoTypeAttribute ∧
      parseAttributes "Hash/bytes:4;type:crc32-8".toList
          [("Hash".toList, [(xAxisNameKey, "bytes".toList)])] =
        Result.error ErrMeasurementLineHasNoTypeAttribute :=
  ⟨parseAttributes_type_last "Hash/bytes:4;type:crc32-8".toList []
      (by decide) (by decide) (by decide) (by decide),
    parseAttributes_type_last "Hash/type:crc32-8".toList []
      (by decide) (by decide) (by decide) (by decide),
    parseAttributes_type_last "Hash/bytes:4;type:crc32-8".toList
      [("Hash".toList, [(xAxisNameKey, "bytes".toList)])]
      (by decide) (by decide) (by decide) (by decide)⟩

end Benchart
